import Mathlib

/-!
Verification development for the deitrix/tetris repository.

The authoritative game variant (the one with scoring, levels and the
grace period) lives in main.go; the piece catalog, rotation tables and
TrimSpace live in piece/piece.go.  Go slices are embedded as Lean lists,
machine integers as Nat/Int, nil-able cells as Option, and Go code that
can panic (indexing a nil rotation table, unbounded recursion) as
Option-returning functions where the panic matters.
-/

namespace Tetris

/-! ### Board constants (main.go) -/

def cellSize : Nat := 64
def boardWidth : Nat := 10
def boardHeight : Nat := 20
def floorThickness : Nat := 1
def wallThickness : Nat := 1
def queueSize : Nat := 3
def boardWidthWithWalls : Nat := boardWidth + wallThickness * 2
def boardHeightWithFloor : Nat := boardHeight + floorThickness
def cellCount : Nat := boardWidthWithWalls * boardHeightWithFloor

/-! ### Pieces (piece/piece.go)

The Piece struct of the authoritative variant carries a mask (row-major
0/1 ints), a width/height, a board position, a color/tint identity, and
(per the spec's data model) a mod-4 rotation-state counter and an
opacity used for the grace-period flicker.  The cell/tint package is not
part of the core; tints are modelled as plain Nat identities. -/

structure Piece where
  Mask : List Int
  Width : Nat
  Height : Nat
  X : Int := 0
  Y : Int := 0
  Tint : Nat := 0
  /-- Modelled from the spec: rotation state (0-3), the orientation
  counter tracked mod 4 by the piece package of the authoritative
  variant (absent from the older piece/piece.go in src). -/
  Rotation : Nat := 0
  /-- Modelled from the spec: per-instance opacity used for the
  grace-period flicker in the authoritative variant. -/
  Opacity : Nat := 255
  deriving Repr, DecidableEq

/-- The seven catalog shapes (piece/piece.go).  Clone deep-copies the
mask in Go; values are immutable here, so cloning is the identity. -/
def pieceI : Piece :=
  { Mask := [0, 0, 0, 0,
             0, 0, 0, 0,
             1, 1, 1, 1,
             0, 0, 0, 0],
    Width := 4, Height := 4, Tint := 1 }

def pieceJ : Piece :=
  { Mask := [1, 0, 0,
             1, 1, 1,
             0, 0, 0],
    Width := 3, Height := 3, Tint := 2 }

def pieceL : Piece :=
  { Mask := [0, 0, 1,
             1, 1, 1,
             0, 0, 0],
    Width := 3, Height := 3, Tint := 3 }

def pieceO : Piece :=
  { Mask := [1, 1,
             1, 1],
    Width := 2, Height := 2, Tint := 4 }

def pieceS : Piece :=
  { Mask := [0, 1, 1,
             1, 1, 0,
             0, 0, 0],
    Width := 3, Height := 3, Tint := 5 }

def pieceT : Piece :=
  { Mask := [0, 1, 0,
             1, 1, 1,
             0, 0, 0],
    Width := 3, Height := 3, Tint := 6 }

def pieceZ : Piece :=
  { Mask := [1, 1, 0,
             0, 1, 1,
             0, 0, 0],
    Width := 3, Height := 3, Tint := 7 }

/-- rotateIndices (piece/piece.go): a Go map from mask length to the
index-permutation table.  A missing key yields Go's zero value, the nil
slice, embedded as the empty list. -/
def rotateIndices (n : Nat) : List Nat :=
  if n = 9 then
    [2, 5, 8,
     1, 4, 7,
     0, 3, 6]
  else if n = 16 then
    [3, 7, 11, 15,
     2, 6, 10, 14,
     1, 5, 9, 13,
     0, 4, 8, 12]
  else []

/-- The write loop of Rotate, iterating over the remaining mask indices
and threading the slice being built. -/
def rotWrite (tbl : List Nat) (mask : List Int) : List Nat → List Int → Option (List Int)
  | [], acc => some acc
  | i :: is, acc =>
    match tbl.get? i with
    | none => none
    | some j =>
      if j < acc.length then rotWrite tbl mask is (acc.set j (mask.getD i 0)) else none

/-- The write loop of Rotate: newMask[rotateIndices[len(mask)][i]] =
mask[i] for every index i of the mask, starting from a zeroed slice of
the same length.  Indexing the table out of range panics in Go (in
particular for every nonempty mask whose length has no table: the table
is then the nil slice), modelled by returning none. -/
def rotApply (tbl : List Nat) (mask : List Int) : Option (List Int) :=
  rotWrite tbl mask (List.range mask.length) (List.replicate mask.length 0)

/-- Rotate (piece/piece.go lines 150-161).  Pieces narrower than 3
return unchanged; otherwise the mask is permuted through the table for
its length.  The rotation-state counter increment is modelled from the
spec (the src piece.go variant has no counter). -/
def Piece.rotate (p : Piece) : Option Piece :=
  if p.Width < 3 then some p
  else
    match rotApply (rotateIndices p.Mask.length) p.Mask with
    | none => none
    | some m => some { p with Mask := m, Rotation := (p.Rotation + 1) % 4 }

/-- Bounding box accumulator used by TrimSpace. -/
structure TrimBox where
  minX : Nat
  minY : Nat
  maxX : Nat
  maxY : Nat
  deriving Repr, DecidableEq

/-- One step of TrimSpace's bounding-box loop. -/
def trimStep (p : Piece) (b : TrimBox) (i : Nat) : TrimBox :=
  if p.Mask.getD i 0 = 0 then b
  else
    let x := i % p.Width
    let y := i / p.Width
    { minX := if x < b.minX then x else b.minX,
      minY := if y < b.minY then y else b.minY,
      maxX := if x > b.maxX then x else b.maxX,
      maxY := if y > b.maxY then y else b.maxY }

/-- The bounding box computed by TrimSpace, starting from
(minX, minY, maxX, maxY) = (100, 100, 0, 0) as in the Go code. -/
def trimBounds (p : Piece) : TrimBox :=
  (List.range p.Mask.length).foldl (trimStep p)
    { minX := 100, minY := 100, maxX := 0, maxY := 0 }

/-- TrimSpace (piece/piece.go lines 106-143): re-slices the mask to the
computed bounding box. -/
def Piece.TrimSpace (p : Piece) : Piece :=
  let b := trimBounds p
  let newWidth := b.maxX - b.minX + 1
  let newHeight := b.maxY - b.minY + 1
  let newMask := (List.range (newWidth * newHeight)).map
    (fun i => p.Mask.getD ((i / newWidth + b.minY) * p.Width + i % newWidth + b.minX) 0)
  { p with Mask := newMask, Width := newWidth, Height := newHeight }

/-- Applies rotate n times, failing if any step does. -/
def Piece.rotateN (p : Piece) : Nat → Option Piece
  | 0 => some p
  | n + 1 =>
    match p.rotate with
    | none => none
    | some q => q.rotateN n

/-- Modelled from the spec: ResetRotation of the authoritative piece
package (absent from src) returns a piece to its spawn orientation; the
spec states rotation cycles through exactly 4 orientations, so the
spawn orientation is reached by advancing the mod-4 counter to 0.  An
unsupported rotation is a no-op per the spec's error-handling design. -/
def Piece.resetRotation (p : Piece) : Piece :=
  match p.rotateN ((4 - p.Rotation % 4) % 4) with
  | some q => { q with Rotation := 0 }
  | none => { p with Rotation := 0 }

/-! ### The game state (main.go, authoritative variant) -/

/-- A board cell carries only a color/tint identity. -/
structure Cell where
  Tint : Nat
  deriving Repr, DecidableEq

/-- The tint of the permanent border cells (cell.Wall). -/
def wallCell : Cell := { Tint := 0 }

/-- The board: a flat slice of nil-able cells indexed by
y * boardWidthWithWalls + x. -/
abbrev Board := List (Option Cell)

structure Game where
  Cells : Board
  Queue : Piece × Piece × Piece
  DidHoldPiece : Bool := false
  HoldPiece : Option Piece := none
  FallingPiece : Piece
  FastFalling : Bool := false
  OpacityDirection : Bool := false
  TicksSinceFall : Nat := 0
  TicksSinceMove : Nat := 0
  LastChanceTicks : Nat := 0
  Level : Nat := 0
  Score : Nat := 0
  LinesCleared : Nat := 0
  ShowDebug : Bool := false
  deriving Repr, DecidableEq

/-- Reads the board at a (possibly signed) flat index.  Go panics on an
out-of-range slice read; gameplay relies on the pre-filled borders to
keep every examined index in range, and an out-of-range read is
modelled as an empty cell. -/
def cellAt (cells : Board) (i : Int) : Option Cell :=
  if 0 ≤ i then cells.getD i.toNat none else none

/-- Writes the board at a (possibly signed) flat index; out-of-range
writes (a Go panic, unreachable in play) are dropped. -/
def setCell (cells : Board) (i : Int) (c : Option Cell) : Board :=
  if 0 ≤ i then cells.set i.toNat c else cells

/-- placeBorderCells (main.go lines 860-869): fills the wall columns and
the floor rows of the board with permanent cells. -/
def placeBorderCells (cells : Board) : Board :=
  (List.range boardWidthWithWalls).foldl
    (fun cs x =>
      (List.range boardHeightWithFloor).foldl
        (fun cs2 y =>
          if x < wallThickness ∨ boardWidthWithWalls - wallThickness ≤ x ∨
              boardHeightWithFloor - floorThickness ≤ y then
            cs2.set (y * boardWidthWithWalls + x) (some wallCell)
          else cs2)
        cs)
    cells

/-- The board of a freshly constructed game. -/
def initialCells : Board := placeBorderCells (List.replicate cellCount none)

/-- The spawn column: boardWidthWithWalls/2 - width/2. -/
def spawnX (w : Nat) : Int := (boardWidthWithWalls : Int) / 2 - (w : Int) / 2

/-- loadNextPiece (main.go lines 718-726): pulls the queue front into
the falling slot, shifts the queue, and appends a fresh random piece r
(the random draw is passed in explicitly). -/
def loadNextPiece (g : Game) (r : Piece) : Game :=
  let f := g.Queue.1
  { g with
    FallingPiece := { f with X := spawnX f.Width, Y := 0 },
    Queue := (g.Queue.2.1, g.Queue.2.2, r) }

/-- NewGame (main.go lines 474-482): allocates the board, fills the
queue with three random pieces, places the borders and loads the first
piece; the four random draws are passed in explicitly. -/
def newGame (q0 q1 q2 q3 : Piece) : Game :=
  loadNextPiece
    { Cells := initialCells,
      Queue := (q0, q1, q2),
      FallingPiece := q0 }
    q3

/-- The flat board index examined for occupied mask cell i of piece p,
offset by (dx, dy). -/
def maskIdx (p : Piece) (i : Nat) (dx dy : Int) : Int :=
  (p.Y + (i / p.Width : Nat) + dy) * (boardWidthWithWalls : Int) + (p.X + (i % p.Width : Nat) + dx)

/-- canMoveLeft (main.go lines 562-574). -/
def canMoveLeft (g : Game) : Bool :=
  (List.range g.FallingPiece.Mask.length).all fun i =>
    g.FallingPiece.Mask.getD i 0 == 0 ||
    (cellAt g.Cells (maskIdx g.FallingPiece i (-1) 0)).isNone

/-- canMoveRight (main.go lines 576-588). -/
def canMoveRight (g : Game) : Bool :=
  (List.range g.FallingPiece.Mask.length).all fun i =>
    g.FallingPiece.Mask.getD i 0 == 0 ||
    (cellAt g.Cells (maskIdx g.FallingPiece i 1 0)).isNone

/-- canMoveDown (main.go lines 590-602). -/
def canMoveDown (g : Game) (p : Piece) : Bool :=
  (List.range p.Mask.length).all fun i =>
    p.Mask.getD i 0 == 0 ||
    (cellAt g.Cells (maskIdx p i 0 1)).isNone

/-- canRotate (main.go lines 625-642): false outright for the 2x2 mask;
otherwise the rotated mask is checked cell by cell at the piece's
current position.  Computing the rotated mask can panic in Go
(unsupported table size), hence the Option result. -/
def canRotate (g : Game) : Option Bool :=
  if g.FallingPiece.Mask.length = 4 then some false
  else
    match g.FallingPiece.rotate with
    | none => none
    | some p =>
      some ((List.range p.Mask.length).all fun i =>
        p.Mask.getD i 0 == 0 ||
        (cellAt g.Cells (maskIdx p i 0 0)).isNone)

/-- The descent loop of commitPiece and ghostPiece: moves the piece down
while canMoveDown holds.  The loop is unbounded in Go and relies on the
occupied floor to terminate; it is embedded with explicit fuel, and
boardHeightWithFloor steps suffice on any board whose floor is
occupied. -/
def dropPiece (g : Game) : Nat → Piece → Piece
  | 0, p => p
  | fuel + 1, p =>
    if canMoveDown g p then dropPiece g fuel { p with Y := p.Y + 1 } else p

/-- The descent distance counted by earlyCommitScore, with the same
fuel embedding as dropPiece. -/
def dropDistance (g : Game) : Nat → Piece → Nat
  | 0, _ => 0
  | fuel + 1, p =>
    if canMoveDown g p then dropDistance g fuel { p with Y := p.Y + 1 } + 1 else 0

/-- earlyCommitScore (main.go lines 615-623): 2 points per row of
descent skipped by a hard drop. -/
def earlyCommitScore (g : Game) : Nat :=
  dropDistance g boardHeightWithFloor g.FallingPiece * 2

/-- Writes the occupied cells of piece p into the board at its current
position (the transcription loop of commitPiece). -/
def writeMask (cells : Board) (p : Piece) : Board :=
  (List.range p.Mask.length).foldl
    (fun cs i =>
      if p.Mask.getD i 0 == 0 then cs
      else setCell cs (maskIdx p i 0 0) (some { Tint := p.Tint }))
    cells

/-! ### Line clearing (main.go lines 728-756) -/

/-- The inner loop of clearLines: a row is full iff every playable
column of it is occupied. -/
def rowFull (cells : Board) (y : Nat) : Bool :=
  (List.range' wallThickness boardWidth).all fun x =>
    !(cells.getD (y * boardWidthWithWalls + x) none).isNone

/-- The inner loop of removeRow for one destination row y: every
playable column of row y receives the cell above it. -/
def setRowFromAbove (cells : Board) (y : Nat) : Board :=
  (List.range' wallThickness boardWidth).foldl
    (fun cs x =>
      cs.set (y * boardWidthWithWalls + x)
        (cs.getD ((y - 1) * boardWidthWithWalls + x) none))
    cells

/-- removeRow (main.go lines 750-756): shifts every playable row from
the removed row up to row 1 down from the row above it, descending, so
row 0 is never written. -/
def removeRow (cells : Board) : Nat → Board
  | 0 => cells
  | y + 1 => removeRow (setRowFromAbove cells (y + 1)) y

/-- The scan of clearLines, ascending over the playable rows; rem
counts the rows still to scan, so row boardHeight - rem is examined
next. -/
def clearLinesAux : Nat → Board × Nat → Board × Nat
  | 0, st => st
  | rem + 1, st =>
    let y := boardHeight - (rem + 1)
    if rowFull st.1 y then clearLinesAux rem (removeRow st.1 y, st.2 + 1)
    else clearLinesAux rem st

/-- The board mutation and line count of clearLines. -/
def clearLinesCells (cells : Board) : Board × Nat :=
  clearLinesAux boardHeight (cells, 0)

/-- lineScore (main.go lines 404-409): a Go map; a missing key yields
the zero value. -/
def lineScore (n : Nat) : Nat :=
  if n = 1 then 40
  else if n = 2 then 100
  else if n = 3 then 300
  else if n = 4 then 1200
  else 0

/-- getLineScore (main.go lines 411-413). -/
def getLineScore (level n : Nat) : Nat := lineScore n * (level + 1)

/-- clearLines (main.go lines 728-748): scans the playable rows,
removing each full one, then updates score, lines-cleared and level. -/
def clearLines (g : Game) : Game :=
  let r := clearLinesCells g.Cells
  let g1 := { g with Cells := r.1 }
  if 0 < r.2 then
    { g1 with
      Score := g1.Score + getLineScore g1.Level r.2,
      LinesCleared := g1.LinesCleared + r.2,
      Level := min ((g1.LinesCleared + r.2) / 10) 29 }
  else g1

/-- commitPiece (main.go lines 647-665): drops the piece to rest,
transcribes it into the board, loads the next piece (random draw r),
clears lines and re-arms the hold. -/
def commitPiece (g : Game) (r : Piece) : Game :=
  let f := dropPiece g boardHeightWithFloor g.FallingPiece
  let g1 := { g with FallingPiece := f, Cells := writeMask g.Cells f }
  let g2 := clearLines (loadNextPiece g1 r)
  { g2 with DidHoldPiece := false, LastChanceTicks := 0 }

/-- holdPiece (main.go lines 667-682): swaps or stores the falling
piece, resets both pieces to spawn position and orientation, and marks
the hold as used for this turn. -/
def holdPiece (g : Game) (r : Piece) : Game :=
  let s :=
    match g.HoldPiece with
    | none => (loadNextPiece g r, g.FallingPiece)
    | some hp => ({ g with FallingPiece := hp }, g.FallingPiece)
  let f0 := s.1.FallingPiece.resetRotation
  let f := { f0 with X := spawnX f0.Width, Y := 0 }
  let h0 := s.2.resetRotation
  let h := { h0 with X := 0, Y := 0 }
  { s.1 with FallingPiece := f, HoldPiece := some h, DidHoldPiece := true }

/-! ### Fall timing (main.go lines 381-423, 684-716) -/

/-- fallSpeed (main.go lines 381-402): the level to frames-between-falls
Go map; a missing key is none. -/
def fallSpeedTbl (l : Int) : Option Nat :=
  if l = 0 then some 53
  else if l = 1 then some 49
  else if l = 2 then some 45
  else if l = 3 then some 41
  else if l = 4 then some 37
  else if l = 5 then some 33
  else if l = 6 then some 28
  else if l = 7 then some 22
  else if l = 8 then some 17
  else if l = 9 then some 11
  else if l = 10 then some 10
  else if l = 11 then some 9
  else if l = 12 then some 8
  else if l = 13 then some 7
  else if l = 14 then some 6
  else if l = 16 then some 5
  else if l = 18 then some 4
  else if l = 20 then some 3
  else if l = 22 then some 2
  else if l = 29 then some 1
  else none

/-- getFallSpeed (main.go lines 415-423): recursion on level - 1 when
the level key is absent.  The Go recursion is unbounded (it diverges for
negative levels); it is embedded with explicit fuel, none meaning the
fuel ran out before the recursion returned. -/
def getFallSpeedFuel : Nat → Int → Option Nat
  | 0, _ => none
  | fuel + 1, l =>
    if 29 < l then some 1
    else
      match fallSpeedTbl l with
      | some s => some s
      | none => getFallSpeedFuel fuel (l - 1)

/-- getFallSpeed with the fuel that the termination theorem proves
sufficient for nonnegative levels. -/
def fallSpeedAt (l : Int) : Option Nat := getFallSpeedFuel (l.toNat + 1) l

/-- Total wrapper used by the tick step (levels are naturals there, and
fallSpeedAt is proved to return a value for every natural level). -/
def getFallSpeedN (l : Nat) : Nat := (fallSpeedAt l).getD 1

/-- fall (main.go lines 684-716): gravity, fast-fall scoring, the
grace-period ("last chance") commit and the opacity flicker. -/
def fall (g : Game) (minTicks : Nat) (r : Piece) : Game :=
  if canMoveDown g g.FallingPiece then
    let g1 := { g with FallingPiece := { g.FallingPiece with Opacity := 255 } }
    if minTicks ≤ g1.TicksSinceFall then
      { g1 with
        FallingPiece := { g1.FallingPiece with Y := g1.FallingPiece.Y + 1 },
        Score := if g1.FastFalling then g1.Score + 1 else g1.Score,
        TicksSinceFall := 0, TicksSinceMove := 0 }
    else { g1 with TicksSinceFall := g1.TicksSinceFall + 1 }
  else if 30 ≤ g.TicksSinceMove ∨ 120 ≤ g.LastChanceTicks then
    { commitPiece g r with TicksSinceFall := 0 }
  else
    let g1 := { g with LastChanceTicks := g.LastChanceTicks + 1 }
    if g1.OpacityDirection then
      let o := g1.FallingPiece.Opacity + 8
      if 255 ≤ o then
        { g1 with FallingPiece := { g1.FallingPiece with Opacity := 255 },
                  OpacityDirection := false }
      else { g1 with FallingPiece := { g1.FallingPiece with Opacity := o } }
    else
      let o := g1.FallingPiece.Opacity - 8
      if o ≤ 128 then
        { g1 with FallingPiece := { g1.FallingPiece with Opacity := 128 },
                  OpacityDirection := true }
      else { g1 with FallingPiece := { g1.FallingPiece with Opacity := o } }

/-! ### One tick of Update (main.go lines 488-544)

Update samples the input once per tick; its branches are decomposed
into separate actions, each carrying the random piece draws it may
consume, so a tick of Update is a short sequence of these actions. -/

inductive Action where
  | reset (q0 q1 q2 q3 : Piece)
  | toggleDebug
  | hardDrop (r : Piece)
  | holdKey (r : Piece)
  | moveLeft
  | moveRight
  | rotateKey
  | tick (fast : Bool) (r : Piece)
  deriving Repr

def step (g : Game) (a : Action) : Game :=
  match a with
  | .reset q0 q1 q2 q3 => newGame q0 q1 q2 q3
  | .toggleDebug => { g with ShowDebug := !g.ShowDebug }
  | .hardDrop r => commitPiece { g with Score := g.Score + earlyCommitScore g } r
  | .holdKey r => if g.DidHoldPiece then g else holdPiece g r
  | .moveLeft =>
    if canMoveLeft g then
      { g with FallingPiece := { g.FallingPiece with X := g.FallingPiece.X - 1 },
               TicksSinceMove := 0 }
    else g
  | .moveRight =>
    if canMoveRight g then
      { g with FallingPiece := { g.FallingPiece with X := g.FallingPiece.X + 1 },
               TicksSinceMove := 0 }
    else g
  | .rotateKey =>
    if canRotate g = some true then
      { g with FallingPiece := (g.FallingPiece.rotate).getD g.FallingPiece,
               TicksSinceMove := 0 }
    else g
  | .tick fast r =>
    let g1 := { g with FastFalling := fast,
                       TicksSinceMove := if fast then g.TicksSinceMove else g.TicksSinceMove + 1 }
    fall g1 (if fast then 1 else getFallSpeedN g1.Level) r

/-- The states reachable from some freshly constructed game by any
sequence of Update actions. -/
def Reachable (g : Game) : Prop :=
  ∃ q0 q1 q2 q3,
    Relation.ReflTransGen (fun a b => ∃ act, b = step a act) (newGame q0 q1 q2 q3) g

/-! ### Generic list helpers -/

theorem getD_set_ne {α : Type} (l : List α) (i j : Nat) (a d : α) (h : i ≠ j) :
    (l.set i a).getD j d = l.getD j d := by
  rw [List.getD_eq_getElem?_getD, List.getD_eq_getElem?_getD, List.getElem?_set_ne h]

theorem getD_set_lt {α : Type} (l : List α) (i : Nat) (a d : α) (h : i < l.length) :
    (l.set i a).getD i d = a := by
  rw [List.getD_eq_getElem?_getD, List.getElem?_set_eq_of_lt a h]
  rfl

theorem getD_set_ge {α : Type} (l : List α) (i j : Nat) (a d : α) (h : l.length ≤ i) :
    (l.set i a).getD j d = l.getD j d := by
  rw [List.set_eq_of_length_le h]

theorem all_congr_of_mem {α : Type} {l : List α} {p q : α → Bool}
    (h : ∀ a ∈ l, p a = q a) : l.all p = l.all q := by
  induction l with
  | nil => rfl
  | cons a l ih =>
    simp only [List.all_cons, h a (by simp)]
    rw [ih fun b hb => h b (by simp [hb])]

/-! ### Row-shift lemmas for removeRow -/

theorem constants_eq :
    boardWidthWithWalls = 12 ∧ boardHeight = 20 ∧ boardHeightWithFloor = 21 ∧
    cellCount = 252 ∧ wallThickness = 1 ∧ boardWidth = 10 ∧ floorThickness = 1 := by
  refine ⟨rfl, rfl, rfl, rfl, rfl, rfl, rfl⟩

theorem foldSetRow_getD (y : Nat) (hy : 1 ≤ y) :
    ∀ (xs : List Nat), (∀ x ∈ xs, 1 ≤ x ∧ x ≤ 10) → ∀ (cells : Board) (i : Nat),
      (xs.foldl
        (fun cs x =>
          cs.set (y * boardWidthWithWalls + x)
            (cs.getD ((y - 1) * boardWidthWithWalls + x) none))
        cells).getD i none =
      if (∃ x ∈ xs, i = y * 12 + x) ∧ i < cells.length then cells.getD (i - 12) none
      else cells.getD i none := by
  intro xs
  induction xs with
  | nil => intro _ cells i; simp
  | cons x xs ih =>
    intro hxs cells i
    have hx1 : 1 ≤ x := (hxs x (List.mem_cons_self x xs)).1
    have hx10 : x ≤ 10 := (hxs x (List.mem_cons_self x xs)).2
    have hW : boardWidthWithWalls = 12 := rfl
    rw [List.foldl_cons, ih (fun b hb => hxs b (List.mem_cons_of_mem x hb)), List.length_set, hW]
    by_cases hlen : i < cells.length
    · by_cases hmem : ∃ z ∈ xs, i = y * 12 + z
      · have hc1 : (∃ z ∈ xs, i = y * 12 + z) ∧ i < cells.length := ⟨hmem, hlen⟩
        obtain ⟨z, hzmem, hiz⟩ := hmem
        have hz1 : 1 ≤ z := (hxs z (List.mem_cons_of_mem x hzmem)).1
        have hz10 : z ≤ 10 := (hxs z (List.mem_cons_of_mem x hzmem)).2
        have hc2 : (∃ z ∈ x :: xs, i = y * 12 + z) ∧ i < cells.length :=
          ⟨⟨z, List.mem_cons_of_mem x hzmem, hiz⟩, hlen⟩
        rw [if_pos hc1, if_pos hc2]
        exact getD_set_ne _ _ _ _ _ (by omega)
      · by_cases hx : i = y * 12 + x
        · have hc2 : (∃ z ∈ x :: xs, i = y * 12 + z) ∧ i < cells.length :=
            ⟨⟨x, List.mem_cons_self x xs, hx⟩, hlen⟩
          rw [if_neg (fun hc => hmem hc.1), if_pos hc2, hx,
            getD_set_lt _ _ _ _ (by omega)]
          congr 1
          omega
        · have hnone : ¬((∃ z ∈ x :: xs, i = y * 12 + z) ∧ i < cells.length) := by
            rintro ⟨⟨z, hz, hiz⟩, -⟩
            rcases List.mem_cons.mp hz with rfl | hzz
            · exact hx hiz
            · exact hmem ⟨z, hzz, hiz⟩
          rw [if_neg (fun hc => hmem hc.1), if_neg hnone]
          exact getD_set_ne _ _ _ _ _ (by omega)
    · rw [if_neg (fun hc => hlen hc.2), if_neg (fun hc => hlen hc.2)]
      by_cases hw : y * 12 + x < cells.length
      · exact getD_set_ne _ _ _ _ _ (by omega)
      · exact getD_set_ge _ _ _ _ _ (by omega)

theorem foldSetRow_length (y : Nat) :
    ∀ (xs : List Nat) (cells : Board),
      (xs.foldl
        (fun cs x =>
          cs.set (y * boardWidthWithWalls + x)
            (cs.getD ((y - 1) * boardWidthWithWalls + x) none))
        cells).length = cells.length := by
  intro xs
  induction xs with
  | nil => intro cells; rfl
  | cons x xs ih => intro cells; rw [List.foldl_cons, ih, List.length_set]

theorem setRowFromAbove_getD (cells : Board) (y : Nat) (hy : 1 ≤ y) (i : Nat) :
    (setRowFromAbove cells y).getD i none =
      if i / 12 = y ∧ 1 ≤ i % 12 ∧ i % 12 ≤ 10 ∧ i < cells.length then
        cells.getD (i - 12) none
      else cells.getD i none := by
  have hxs : ∀ x ∈ List.range' wallThickness boardWidth, 1 ≤ x ∧ x ≤ 10 := by
    intro x hx
    have h := List.mem_range'_1.mp hx
    simp only [wallThickness, boardWidth] at h
    constructor <;> omega
  rw [setRowFromAbove, foldSetRow_getD y hy _ hxs cells i]
  have hiff : (∃ x ∈ List.range' wallThickness boardWidth, i = y * 12 + x) ↔
      (i / 12 = y ∧ 1 ≤ i % 12 ∧ i % 12 ≤ 10) := by
    constructor
    · rintro ⟨x, hx, rfl⟩
      have h := List.mem_range'_1.mp hx
      simp only [wallThickness, boardWidth] at h
      refine ⟨by omega, by omega, by omega⟩
    · rintro ⟨h1, h2, h3⟩
      refine ⟨i % 12, List.mem_range'_1.mpr ?_, by omega⟩
      simp only [wallThickness, boardWidth]
      omega
  by_cases hmem : ∃ x ∈ List.range' wallThickness boardWidth, i = y * 12 + x
  · by_cases hlen : i < cells.length
    · have h3 := hiff.mp hmem
      rw [if_pos ⟨hmem, hlen⟩, if_pos ⟨h3.1, h3.2.1, h3.2.2, hlen⟩]
    · rw [if_neg (fun hc => hlen hc.2), if_neg (fun hc => hlen hc.2.2.2)]
  · rw [if_neg (fun hc => hmem hc.1),
      if_neg (fun hc => hmem (hiff.mpr ⟨hc.1, hc.2.1, hc.2.2.1⟩))]

theorem setRowFromAbove_length (cells : Board) (y : Nat) :
    (setRowFromAbove cells y).length = cells.length :=
  foldSetRow_length y _ cells

theorem removeRow_length (cells : Board) (row : Nat) :
    (removeRow cells row).length = cells.length := by
  induction row generalizing cells with
  | zero => rfl
  | succ r ih => rw [removeRow, ih, setRowFromAbove_length]

theorem removeRow_getD (cells : Board) (row : Nat) (i : Nat) :
    (removeRow cells row).getD i none =
      if 1 ≤ i / 12 ∧ i / 12 ≤ row ∧ 1 ≤ i % 12 ∧ i % 12 ≤ 10 ∧ i < cells.length then
        cells.getD (i - 12) none
      else cells.getD i none := by
  induction row generalizing cells with
  | zero =>
    rw [removeRow]
    rw [if_neg (by omega)]
  | succ r ih =>
    rw [removeRow, ih, setRowFromAbove_length]
    by_cases hcond : 1 ≤ i / 12 ∧ i / 12 ≤ r ∧ 1 ≤ i % 12 ∧ i % 12 ≤ 10 ∧ i < cells.length
    · rw [if_pos hcond, setRowFromAbove_getD _ _ (by omega),
        if_neg (by omega), if_pos (by omega)]
    · rw [if_neg hcond, setRowFromAbove_getD _ _ (by omega)]
      by_cases h2 : i / 12 = r + 1 ∧ 1 ≤ i % 12 ∧ i % 12 ≤ 10 ∧ i < cells.length
      · rw [if_pos h2, if_pos (by omega)]
      · rw [if_neg h2, if_neg (by omega)]

/-! ### clearLines lemmas -/

theorem rowFull_congr (c1 c2 : Board) (y : Nat)
    (h : ∀ x, 1 ≤ x → x ≤ 10 → c1.getD (y * 12 + x) none = c2.getD (y * 12 + x) none) :
    rowFull c1 y = rowFull c2 y := by
  have hW : boardWidthWithWalls = 12 := rfl
  unfold rowFull
  rw [hW]
  apply all_congr_of_mem
  intro x hx
  have hb := List.mem_range'_1.mp hx
  simp only [wallThickness, boardWidth] at hb
  rw [h x (by omega) (by omega)]

theorem rowFull_removeRow_high (cells : Board) (r y : Nat) (h : r < y) :
    rowFull (removeRow cells r) y = rowFull cells y := by
  apply rowFull_congr
  intro x hx1 hx10
  rw [removeRow_getD, if_neg (by intro hc; omega)]

theorem clearLinesAux_length (rem : Nat) :
    ∀ st : Board × Nat, (clearLinesAux rem st).1.length = st.1.length := by
  induction rem with
  | zero => intro st; rfl
  | succ r ih =>
    intro st
    simp only [clearLinesAux]
    by_cases h : rowFull st.1 (boardHeight - (r + 1))
    · rw [if_pos h, ih]
      exact removeRow_length _ _
    · rw [if_neg h, ih]

theorem clearLinesAux_untouched (rem : Nat) :
    ∀ (st : Board × Nat) (i : Nat),
      i / 12 = 0 ∨ i % 12 = 0 ∨ 11 ≤ i % 12 ∨ 20 ≤ i / 12 →
      (clearLinesAux rem st).1.getD i none = st.1.getD i none := by
  induction rem with
  | zero => intro st i _; rfl
  | succ r ih =>
    intro st i hi
    have hB : boardHeight = 20 := rfl
    simp only [clearLinesAux]
    by_cases h : rowFull st.1 (boardHeight - (r + 1))
    · rw [if_pos h, ih _ _ hi, removeRow_getD, hB, if_neg (by intro hc; omega)]
    · rw [if_neg h, ih _ _ hi]

theorem clearLinesAux_noFull (rem : Nat) (hrem : rem ≤ 20) :
    ∀ st : Board × Nat, (∀ y, 20 - rem ≤ y → y < 20 → rowFull st.1 y = false) →
      clearLinesAux rem st = st := by
  induction rem with
  | zero => intro st _; rfl
  | succ r ih =>
    intro st h
    have hB : boardHeight = 20 := rfl
    simp only [clearLinesAux]
    have hy : rowFull st.1 (boardHeight - (r + 1)) = false := by
      rw [hB]
      exact h _ (by omega) (by omega)
    rw [if_neg (by simp [hy])]
    exact ih (by omega) st (fun y hy1 hy2 => h y (by omega) hy2)

theorem clearLinesAux_count (rem : Nat) (hrem : rem ≤ 20) :
    ∀ (cells0 : Board) (st : Board × Nat),
      (∀ y, 20 - rem ≤ y → y < 20 → rowFull st.1 y = rowFull cells0 y) →
      (clearLinesAux rem st).2 =
        st.2 + ((List.range' (20 - rem) rem).filter (fun y => rowFull cells0 y)).length := by
  induction rem with
  | zero => intro cells0 st _; simp [clearLinesAux]
  | succ r ih =>
    intro cells0 st h
    have hy0 : boardHeight - (r + 1) = 19 - r := by
      show 20 - (r + 1) = 19 - r
      omega
    have hsub : 20 - (r + 1) = 19 - r := by omega
    have hagree : rowFull st.1 (19 - r) = rowFull cells0 (19 - r) :=
      h (19 - r) (by omega) (by omega)
    have hsplit : List.range' (20 - (r + 1)) (r + 1) =
        (19 - r) :: List.range' (20 - r) r := by
      have h20 : 20 - (r + 1) + 1 = 20 - r := by omega
      rw [List.range'_succ, h20, hsub]
    simp only [clearLinesAux, hy0]
    rw [hsplit, List.filter_cons]
    by_cases hf : rowFull st.1 (19 - r)
    · rw [if_pos hf,
        ih (by omega) cells0 (removeRow st.1 (19 - r), st.2 + 1)
          (fun y hy1 hy2 => by
            rw [rowFull_removeRow_high _ _ _ (by omega)]
            exact h y (by omega) hy2)]
      have hcf : rowFull cells0 (19 - r) = true := by rw [← hagree]; exact hf
      rw [if_pos hcf, List.length_cons]
      omega
    · have hff : rowFull st.1 (19 - r) = false := by
        cases hq : rowFull st.1 (19 - r)
        · rfl
        · exact absurd hq hf
      rw [if_neg hf,
        ih (by omega) cells0 st (fun y hy1 hy2 => h y (by omega) hy2)]
      have hcf : rowFull cells0 (19 - r) = false := by rw [← hagree]; exact hff
      rw [if_neg (by simp [hcf])]

theorem clearLinesAux_single (rem : Nat) (hrem : rem ≤ 20) :
    ∀ (cells : Board) (n : Nat) (r0 : Nat), 20 - rem ≤ r0 → r0 < 20 →
      rowFull cells r0 = true →
      (∀ y, 20 - rem ≤ y → y < 20 → y ≠ r0 → rowFull cells y = false) →
      clearLinesAux rem (cells, n) = (removeRow cells r0, n + 1) := by
  induction rem with
  | zero => intro cells n r0 h1 h2 _ _; omega
  | succ r ih =>
    intro cells n r0 h1 h2 hfull hother
    have hy0 : boardHeight - (r + 1) = 19 - r := by
      show 20 - (r + 1) = 19 - r
      omega
    simp only [clearLinesAux, hy0]
    by_cases heq : 19 - r = r0
    · rw [heq, if_pos hfull]
      apply clearLinesAux_noFull r (by omega)
      intro y hy1 hy2
      rw [rowFull_removeRow_high _ _ _ (by omega)]
      exact hother y (by omega) hy2 (by omega)
    · have hne : rowFull cells (19 - r) = false :=
        hother (19 - r) (by omega) (by omega) heq
      rw [if_neg (by simp [hne])]
      exact ih (by omega) cells n r0 (by omega) h2 hfull
        (fun y a b c => hother y (by omega) b c)

/-! ### Piece rotation helper lemmas -/

theorem exists_eq_list9 (l : List Int) (h : l.length = 9) :
    ∃ a0 a1 a2 a3 a4 a5 a6 a7 a8,
      l = [a0, a1, a2, a3, a4, a5, a6, a7, a8] := by
  rcases l with _ | ⟨a0, _ | ⟨a1, _ | ⟨a2, _ | ⟨a3, _ | ⟨a4, _ | ⟨a5, _ | ⟨a6, _ | ⟨a7, _ |
    ⟨a8, _ | ⟨a9, tl⟩⟩⟩⟩⟩⟩⟩⟩⟩⟩ <;>
    simp only [List.length_cons, List.length_nil] at h <;>
    first
      | omega
      | exact ⟨a0, a1, a2, a3, a4, a5, a6, a7, a8, rfl⟩

theorem exists_eq_list16 (l : List Int) (h : l.length = 16) :
    ∃ a0 a1 a2 a3 a4 a5 a6 a7 a8 a9 a10 a11 a12 a13 a14 a15,
      l = [a0, a1, a2, a3, a4, a5, a6, a7, a8, a9, a10, a11, a12, a13, a14, a15] := by
  rcases l with _ | ⟨a0, _ | ⟨a1, _ | ⟨a2, _ | ⟨a3, _ | ⟨a4, _ | ⟨a5, _ | ⟨a6, _ | ⟨a7, _ |
    ⟨a8, _ | ⟨a9, _ | ⟨a10, _ | ⟨a11, _ | ⟨a12, _ | ⟨a13, _ | ⟨a14, _ | ⟨a15, _ |
    ⟨a16, tl⟩⟩⟩⟩⟩⟩⟩⟩⟩⟩⟩⟩⟩⟩⟩⟩⟩ <;>
    simp only [List.length_cons, List.length_nil] at h <;>
    first
      | omega
      | exact ⟨a0, a1, a2, a3, a4, a5, a6, a7, a8, a9, a10, a11, a12, a13, a14, a15, rfl⟩

theorem rotateN_succ (p : Piece) (n : Nat) (q : Piece) (h : p.rotate = some q) :
    p.rotateN (n + 1) = q.rotateN n := by
  simp only [Piece.rotateN, h]

/-- One rotation of any piece with a 9-cell mask and width at least 3:
the mask is permuted through the 9-entry table. -/
theorem rotate_nine (w : Nat) (hw : ¬w < 3) (a0 a1 a2 a3 a4 a5 a6 a7 a8 : Int)
    (ht : Nat) (x y : Int) (t r o : Nat) :
    Piece.rotate ⟨[a0, a1, a2, a3, a4, a5, a6, a7, a8], w, ht, x, y, t, r, o⟩ =
      some ⟨[a6, a3, a0, a7, a4, a1, a8, a5, a2], w, ht, x, y, t, (r + 1) % 4, o⟩ := by
  unfold Piece.rotate
  rw [if_neg hw]
  simp [rotApply, rotateIndices, rotWrite,
    show List.range 9 = [0, 1, 2, 3, 4, 5, 6, 7, 8] from rfl,
    show List.replicate 9 (0 : Int) = [0, 0, 0, 0, 0, 0, 0, 0, 0] from rfl]

/-- One rotation of any piece with a 16-cell mask and width at least 3:
the mask is permuted through the 16-entry table. -/
theorem rotate_sixteen (w : Nat) (hw : ¬w < 3)
    (a0 a1 a2 a3 a4 a5 a6 a7 a8 a9 a10 a11 a12 a13 a14 a15 : Int)
    (ht : Nat) (x y : Int) (t r o : Nat) :
    Piece.rotate
      ⟨[a0, a1, a2, a3, a4, a5, a6, a7, a8, a9, a10, a11, a12, a13, a14, a15],
        w, ht, x, y, t, r, o⟩ =
      some ⟨[a12, a8, a4, a0, a13, a9, a5, a1, a14, a10, a6, a2, a15, a11, a7, a3],
        w, ht, x, y, t, (r + 1) % 4, o⟩ := by
  unfold Piece.rotate
  rw [if_neg hw]
  simp [rotApply, rotateIndices, rotWrite,
    show List.range 16 = [0, 1, 2, 3, 4, 5, 6, 7, 8, 9, 10, 11, 12, 13, 14, 15] from rfl,
    show List.replicate 16 (0 : Int) =
      [0, 0, 0, 0, 0, 0, 0, 0, 0, 0, 0, 0, 0, 0, 0, 0] from rfl]

theorem rotate_setPos (p : Piece) (a b : Int) :
    ({ p with X := a, Y := b } : Piece).rotate =
      (p.rotate).map (fun q => { q with X := a, Y := b }) := by
  obtain ⟨mask, w, ht, x, y, t, r, o⟩ := p
  simp only [Piece.rotate]
  by_cases hw : w < 3
  · rw [if_pos hw, if_pos hw]
    rfl
  · rw [if_neg hw, if_neg hw]
    cases rotApply (rotateIndices mask.length) mask <;> rfl

theorem rotateN_setPos (n : Nat) : ∀ (p : Piece) (a b : Int),
    ({ p with X := a, Y := b } : Piece).rotateN n =
      (p.rotateN n).map (fun q => { q with X := a, Y := b }) := by
  induction n with
  | zero => intro p a b; rfl
  | succ m ih =>
    intro p a b
    simp only [Piece.rotateN]
    rw [rotate_setPos]
    cases p.rotate with
    | none => rfl
    | some q => exact ih q a b

theorem resetRotation_setPos (p : Piece) (a b : Int) :
    ({ p with X := a, Y := b } : Piece).resetRotation =
      { p.resetRotation with X := a, Y := b } := by
  simp only [Piece.resetRotation]
  rw [rotateN_setPos]
  cases p.rotateN ((4 - p.Rotation % 4) % 4) with
  | none => rfl
  | some q => rfl

/-! ### Claim theorems -/

/-- C1: canRotate returns some false immediately when the falling
piece's mask has length 4 (the 2x2 O shape); for every other falling
piece whose rotation computes, it returns some true iff no occupied
cell of the rotated mask, translated by the piece's current (X, Y)
position, lies on an occupied board cell — the piece's current position
is used as is, with no wall-kick or offset search. -/
theorem canRotate_spec (g : Game) :
    (g.FallingPiece.Mask.length = 4 → canRotate g = some false) ∧
    (∀ rp, g.FallingPiece.Mask.length ≠ 4 → g.FallingPiece.rotate = some rp →
      (canRotate g = some true ↔
        ∀ i < rp.Mask.length, rp.Mask.getD i 0 ≠ 0 →
          cellAt g.Cells (maskIdx rp i 0 0) = none)) := by
  constructor
  · intro h
    rw [canRotate, if_pos h]
  · intro rp h4 hrot
    rw [canRotate, if_neg h4, hrot]
    constructor
    · intro h i hi hocc
      have hall := Option.some.inj h
      have hoi := List.all_eq_true.mp hall i (List.mem_range.mpr hi)
      cases hno : cellAt g.Cells (maskIdx rp i 0 0) with
      | none => rfl
      | some c =>
        rw [hno, Option.isNone_some, Bool.or_false] at hoi
        exact absurd (beq_iff_eq.mp hoi) hocc
    · intro h
      have hall : ((List.range rp.Mask.length).all fun i =>
          rp.Mask.getD i 0 == 0 || (cellAt g.Cells (maskIdx rp i 0 0)).isNone) = true := by
        apply List.all_eq_true.mpr
        intro i hi
        by_cases hz : rp.Mask.getD i 0 = 0
        · rw [hz]
          rfl
        · have hc := h i (List.mem_range.mp hi) hz
          rw [hc]
          simp
      exact congrArg some hall

/-- C1 witness: in a fresh game whose first piece is the J shape, the
rotation hypothesis holds and canRotate agrees with the cell-by-cell
condition. -/
theorem canRotate_spec_witness :
    (newGame pieceJ pieceI pieceL pieceO).FallingPiece.Mask.length ≠ 4 ∧
    ∃ rp, (newGame pieceJ pieceI pieceL pieceO).FallingPiece.rotate = some rp ∧
      (canRotate (newGame pieceJ pieceI pieceL pieceO) = some true ↔
        ∀ i < rp.Mask.length, rp.Mask.getD i 0 ≠ 0 →
          cellAt (newGame pieceJ pieceI pieceL pieceO).Cells (maskIdx rp i 0 0) = none) :=
  ⟨by decide, _, rfl, (canRotate_spec (newGame pieceJ pieceI pieceL pieceO)).2 _ (by decide) rfl⟩

/-- C3: the claim says Rotate is a no-op for pieces of Width at least 3
whose mask length has no rotation table; in the code such a rotation
indexes the nil table slice and panics (modelled: rotate returns none).
The J piece trimmed to its 3x2 bounding box (mask length 6) exhibits
the fault. -/
theorem rotate_unsupported_panics :
    pieceJ.TrimSpace.Width = 3 ∧ pieceJ.TrimSpace.Mask.length = 6 ∧
    pieceJ.TrimSpace.Mask = [1, 0, 0, 1, 1, 1] ∧
    Piece.rotate pieceJ.TrimSpace = none := by decide

/-- C8: on any 3x3 (9-cell) or 4x4 (16-cell) piece, four successive
rotations restore the original mask. -/
theorem rotate_four_restores (p : Piece)
    (h : (p.Width = 3 ∧ p.Mask.length = 9) ∨ (p.Width = 4 ∧ p.Mask.length = 16)) :
    ∃ q, p.rotateN 4 = some q ∧ q.Mask = p.Mask := by
  obtain ⟨mask, w, ht, x, y, t, r, o⟩ := p
  rcases h with ⟨hw, hlen⟩ | ⟨hw, hlen⟩
  · cases hw
    obtain ⟨a0, a1, a2, a3, a4, a5, a6, a7, a8, rfl⟩ := exists_eq_list9 mask hlen
    refine ⟨⟨[a0, a1, a2, a3, a4, a5, a6, a7, a8], 3, ht, x, y, t,
      ((((r + 1) % 4 + 1) % 4 + 1) % 4 + 1) % 4, o⟩, ?_, rfl⟩
    have hchain : Piece.rotateN ⟨[a0, a1, a2, a3, a4, a5, a6, a7, a8], 3, ht, x, y, t, r, o⟩ 4 =
        Piece.rotateN ⟨[a0, a1, a2, a3, a4, a5, a6, a7, a8], 3, ht, x, y, t,
          ((((r + 1) % 4 + 1) % 4 + 1) % 4 + 1) % 4, o⟩ 0 := by
      rw [rotateN_succ _ _ _ (rotate_nine 3 (by omega) a0 a1 a2 a3 a4 a5 a6 a7 a8 ht x y t r o),
        rotateN_succ _ _ _ (rotate_nine 3 (by omega) a6 a3 a0 a7 a4 a1 a8 a5 a2 ht x y t _ o),
        rotateN_succ _ _ _ (rotate_nine 3 (by omega) a8 a7 a6 a5 a4 a3 a2 a1 a0 ht x y t _ o),
        rotateN_succ _ _ _ (rotate_nine 3 (by omega) a2 a5 a8 a1 a4 a7 a0 a3 a6 ht x y t _ o)]
    exact hchain.trans rfl
  · cases hw
    obtain ⟨a0, a1, a2, a3, a4, a5, a6, a7, a8, a9, a10, a11, a12, a13, a14, a15, rfl⟩ :=
      exists_eq_list16 mask hlen
    refine ⟨⟨[a0, a1, a2, a3, a4, a5, a6, a7, a8, a9, a10, a11, a12, a13, a14, a15],
      4, ht, x, y, t, ((((r + 1) % 4 + 1) % 4 + 1) % 4 + 1) % 4, o⟩, ?_, rfl⟩
    have hchain : Piece.rotateN
        ⟨[a0, a1, a2, a3, a4, a5, a6, a7, a8, a9, a10, a11, a12, a13, a14, a15],
          4, ht, x, y, t, r, o⟩ 4 =
        Piece.rotateN
          ⟨[a0, a1, a2, a3, a4, a5, a6, a7, a8, a9, a10, a11, a12, a13, a14, a15],
            4, ht, x, y, t, ((((r + 1) % 4 + 1) % 4 + 1) % 4 + 1) % 4, o⟩ 0 := by
      rw [rotateN_succ _ _ _
          (rotate_sixteen 4 (by omega) a0 a1 a2 a3 a4 a5 a6 a7 a8 a9 a10 a11 a12 a13 a14 a15
            ht x y t r o),
        rotateN_succ _ _ _
          (rotate_sixteen 4 (by omega) a12 a8 a4 a0 a13 a9 a5 a1 a14 a10 a6 a2 a15 a11 a7 a3
            ht x y t _ o),
        rotateN_succ _ _ _
          (rotate_sixteen 4 (by omega) a15 a14 a13 a12 a11 a10 a9 a8 a7 a6 a5 a4 a3 a2 a1 a0
            ht x y t _ o),
        rotateN_succ _ _ _
          (rotate_sixteen 4 (by omega) a3 a7 a11 a15 a2 a6 a10 a14 a1 a5 a9 a13 a0 a4 a8 a12
            ht x y t _ o)]
    exact hchain.trans rfl

/-- C8 witness: four rotations of the J piece restore its mask. -/
theorem rotate_four_restores_witness :
    ∃ q, pieceJ.rotateN 4 = some q ∧ q.Mask = pieceJ.Mask :=
  rotate_four_restores pieceJ (Or.inl ⟨rfl, rfl⟩)

set_option maxHeartbeats 1000000 in
/-- C10: on any piece whose mask length is 9 or 16, rotate succeeds and
returns a mask that is a permutation of the original, so mask length,
Width, Height and the number of occupied cells are preserved. -/
theorem rotate_is_permutation (p : Piece) (h : p.Mask.length = 9 ∨ p.Mask.length = 16) :
    ∃ q, p.rotate = some q ∧ q.Mask.Perm p.Mask ∧ q.Width = p.Width ∧
      q.Height = p.Height ∧ q.Mask.length = p.Mask.length ∧
      q.Mask.countP (fun a => a != 0) = p.Mask.countP (fun a => a != 0) := by
  obtain ⟨mask, w, ht, x, y, t, r, o⟩ := p
  by_cases hw : w < 3
  · refine ⟨_, ?_, List.Perm.refl _, rfl, rfl, rfl, rfl⟩
    simp only [Piece.rotate]
    rw [if_pos hw]
  · rcases h with hlen | hlen
    · obtain ⟨a0, a1, a2, a3, a4, a5, a6, a7, a8, rfl⟩ := exists_eq_list9 mask hlen
      have hperm : (([a6, a3, a0, a7, a4, a1, a8, a5, a2] : List Int)).Perm
          [a0, a1, a2, a3, a4, a5, a6, a7, a8] := by
        have hmap1 : ([a6, a3, a0, a7, a4, a1, a8, a5, a2] : List Int) =
            List.map (fun i => ([a0, a1, a2, a3, a4, a5, a6, a7, a8] : List Int).getD i 0)
              [6, 3, 0, 7, 4, 1, 8, 5, 2] := rfl
        have hmap2 : List.map
            (fun i => ([a0, a1, a2, a3, a4, a5, a6, a7, a8] : List Int).getD i 0)
            (List.range 9) = [a0, a1, a2, a3, a4, a5, a6, a7, a8] := rfl
        rw [hmap1, ← hmap2]
        exact List.Perm.map _ (by decide)
      refine ⟨{ Mask := [a6, a3, a0, a7, a4, a1, a8, a5, a2],
                Width := w, Height := ht, X := x, Y := y, Tint := t,
                Rotation := (r + 1) % 4, Opacity := o },
        ?_, hperm, rfl, rfl, hperm.length_eq, hperm.countP_eq _⟩
      exact rotate_nine w hw a0 a1 a2 a3 a4 a5 a6 a7 a8 ht x y t r o
    · obtain ⟨a0, a1, a2, a3, a4, a5, a6, a7, a8, a9, a10, a11, a12, a13, a14, a15, rfl⟩ :=
        exists_eq_list16 mask hlen
      have hperm : (([a12, a8, a4, a0, a13, a9, a5, a1, a14, a10, a6, a2, a15, a11, a7, a3] :
          List Int)).Perm
          [a0, a1, a2, a3, a4, a5, a6, a7, a8, a9, a10, a11, a12, a13, a14, a15] := by
        have hmap1 : ([a12, a8, a4, a0, a13, a9, a5, a1, a14, a10, a6, a2, a15, a11, a7, a3] :
            List Int) =
            List.map (fun i =>
              ([a0, a1, a2, a3, a4, a5, a6, a7, a8, a9, a10, a11, a12, a13, a14, a15] :
                List Int).getD i 0)
              [12, 8, 4, 0, 13, 9, 5, 1, 14, 10, 6, 2, 15, 11, 7, 3] := rfl
        have hmap2 : List.map
            (fun i =>
              ([a0, a1, a2, a3, a4, a5, a6, a7, a8, a9, a10, a11, a12, a13, a14, a15] :
                List Int).getD i 0)
            (List.range 16) =
            [a0, a1, a2, a3, a4, a5, a6, a7, a8, a9, a10, a11, a12, a13, a14, a15] := rfl
        rw [hmap1, ← hmap2]
        exact List.Perm.map _ (by decide)
      refine ⟨{ Mask := [a12, a8, a4, a0, a13, a9, a5, a1, a14, a10, a6, a2, a15, a11, a7, a3],
                Width := w, Height := ht, X := x, Y := y, Tint := t,
                Rotation := (r + 1) % 4, Opacity := o },
        ?_, hperm, rfl, rfl, hperm.length_eq, hperm.countP_eq _⟩
      exact rotate_sixteen w hw a0 a1 a2 a3 a4 a5 a6 a7 a8 a9 a10 a11 a12 a13 a14 a15
        ht x y t r o

/-- C10 witness: rotating the I piece (4x4) is a permutation of its
mask preserving all the stated quantities. -/
theorem rotate_is_permutation_witness :
    ∃ q, pieceI.rotate = some q ∧ q.Mask.Perm pieceI.Mask ∧ q.Width = pieceI.Width ∧
      q.Height = pieceI.Height ∧ q.Mask.length = pieceI.Mask.length ∧
      q.Mask.countP (fun a => a != 0) = pieceI.Mask.countP (fun a => a != 0) :=
  rotate_is_permutation pieceI (Or.inr rfl)

/-! ### Concrete boards used as witnesses and counterexamples -/

/-- A playable row flanked by wall cells, all playable cells empty. -/
def emptyRowCells : Board := some wallCell :: (List.replicate 10 none ++ [some wallCell])

/-- A playable row flanked by wall cells, all playable cells occupied. -/
def fullRowCells : Board :=
  some wallCell :: (List.replicate 10 (some { Tint := 1 }) ++ [some wallCell])

/-- The all-wall floor row. -/
def wallRowCells : Board := List.replicate 12 (some wallCell)

/-- A board whose only full playable row is row 0. -/
def row0FullBoard : Board :=
  fullRowCells ++ (List.replicate 19 emptyRowCells).flatten ++ wallRowCells

/-- A board whose only full playable row is row 19 (the bottom playable
row). -/
def row19FullBoard : Board :=
  (List.replicate 19 emptyRowCells).flatten ++ fullRowCells ++ wallRowCells

/-- C5: when a commit clears n >= 1 lines at level L, the score gained
by clearLines is lineScore n * (L + 1), with the table 1 -> 40,
2 -> 100, 3 -> 300, 4 -> 1200; in particular 4 lines at level 0 award
1200 and 1 line at level 1 awards 80. -/
theorem lineScore_spec :
    (∀ g : Game, 1 ≤ (clearLinesCells g.Cells).2 →
      (clearLines g).Score = g.Score + lineScore (clearLinesCells g.Cells).2 * (g.Level + 1)) ∧
    lineScore 1 = 40 ∧ lineScore 2 = 100 ∧ lineScore 3 = 300 ∧ lineScore 4 = 1200 ∧
    (∀ g : Game, (clearLinesCells g.Cells).2 = 4 → g.Level = 0 →
      (clearLines g).Score = g.Score + 1200) ∧
    (∀ g : Game, (clearLinesCells g.Cells).2 = 1 → g.Level = 1 →
      (clearLines g).Score = g.Score + 80) := by
  have hmain : ∀ g : Game, 1 ≤ (clearLinesCells g.Cells).2 →
      (clearLines g).Score = g.Score + lineScore (clearLinesCells g.Cells).2 * (g.Level + 1) := by
    intro g hg
    simp only [clearLines]
    rw [if_pos (by omega)]
    rfl
  refine ⟨hmain, rfl, rfl, rfl, rfl, ?_, ?_⟩
  · intro g h4 hl
    have hs := hmain g (by omega)
    rw [hs, h4, hl]
    simp [lineScore]
  · intro g h1 hl
    have hs := hmain g (by omega)
    rw [hs, h1, hl]
    simp [lineScore]

set_option maxRecDepth 4000 in
/-- C5 witness: a board with exactly one full row, cleared at level 1,
awards 40 x 2 = 80 points. -/
theorem lineScore_spec_witness :
    1 ≤ (clearLinesCells ({ newGame pieceI pieceJ pieceL pieceO with
      Cells := row19FullBoard, Level := 1 } : Game).Cells).2 ∧
    (clearLines { newGame pieceI pieceJ pieceL pieceO with
      Cells := row19FullBoard, Level := 1 }).Score =
      ({ newGame pieceI pieceJ pieceL pieceO with
        Cells := row19FullBoard, Level := 1 } : Game).Score + 80 :=
  ⟨by decide,
    lineScore_spec.2.2.2.2.2.2
      { newGame pieceI pieceJ pieceL pieceO with Cells := row19FullBoard, Level := 1 }
      (by decide) rfl⟩

/-- C2 (amended): clearLines treats a row as full iff every playable
cell of it is occupied, and the lines-cleared count is exactly the
number of full rows; removing a full row shifts the playable cells of
every row above it down one row, but row 0's playable cells keep their
previous values (the loop of removeRow stops at row 1, duplicating
row 0 into row 1 instead of clearing row 0). -/
theorem clearLines_spec (cells : Board) (hlen : cells.length = 252) :
    (∀ y, rowFull cells y = true ↔
      ∀ x, 1 ≤ x → x ≤ 10 → cells.getD (y * 12 + x) none ≠ none) ∧
    ((clearLinesCells cells).2 =
      ((List.range 20).filter (fun y => rowFull cells y)).length) ∧
    (∀ x, x ≤ 11 → (clearLinesCells cells).1.getD x none = cells.getD x none) ∧
    (∀ r0, r0 < 20 → rowFull cells r0 = true →
      (∀ y, y < 20 → y ≠ r0 → rowFull cells y = false) →
      ∀ i, (clearLinesCells cells).1.getD i none =
        if 1 ≤ i / 12 ∧ i / 12 ≤ r0 ∧ 1 ≤ i % 12 ∧ i % 12 ≤ 10 ∧ i < 252 then
          cells.getD (i - 12) none
        else cells.getD i none) := by
  refine ⟨?_, ?_, ?_, ?_⟩
  · intro y
    have hW : boardWidthWithWalls = 12 := rfl
    unfold rowFull
    rw [hW, List.all_eq_true]
    constructor
    · intro h x h1 h10
      have hx : x ∈ List.range' wallThickness boardWidth :=
        List.mem_range'_1.mpr (by simp only [wallThickness, boardWidth]; omega)
      have hb := h x hx
      intro hraw
      rw [hraw] at hb
      simp at hb
    · intro h x hx
      have hb := List.mem_range'_1.mp hx
      simp only [wallThickness, boardWidth] at hb
      cases hq : cells.getD (y * 12 + x) none with
      | none => exact absurd hq (h x (by omega) (by omega))
      | some c => rfl
  · have h2 := clearLinesAux_count 20 (by omega) cells (cells, 0) (fun y _ _ => rfl)
    rw [show clearLinesCells cells = clearLinesAux 20 (cells, 0) from rfl, h2,
      List.range_eq_range']
    simp
  · intro x hx
    exact clearLinesAux_untouched 20 (cells, 0) x (Or.inl (by omega))
  · intro r0 h20 hfull hother i
    have hs := clearLinesAux_single 20 (by omega) cells 0 r0 (by omega) h20 hfull
      (fun y hy1 hy2 hy3 => hother y hy2 hy3)
    rw [show clearLinesCells cells = clearLinesAux 20 (cells, 0) from rfl, hs]
    show (removeRow cells r0).getD i none = _
    rw [removeRow_getD, hlen]

set_option maxRecDepth 4000 in
/-- C2 witness: the single-full-row shift on a concrete board with its
full row at the bottom. -/
theorem clearLines_spec_witness :
    row19FullBoard.length = 252 ∧
    (clearLinesCells row19FullBoard).2 =
      ((List.range 20).filter (fun y => rowFull row19FullBoard y)).length :=
  ⟨by decide, (clearLines_spec row19FullBoard (by decide)).2.1⟩

set_option maxRecDepth 4000 in
/-- C2 counterexample: on a board whose row 0 is the full row, the
lines-cleared count is 1 but the "cleared" row is untouched: its
playable cells are still occupied after clearLines, so neither the
cleared row nor row 0 is left empty. -/
theorem clearLines_row0_not_emptied :
    rowFull row0FullBoard 0 = true ∧
    (clearLinesCells row0FullBoard).2 = 1 ∧
    (clearLinesCells row0FullBoard).1.getD 1 none ≠ none := by decide

/-- C7: with the hold slot empty and the hold key pressed, holdPiece
moves the falling piece (reset to spawn orientation and parked at the
origin) into the hold slot, spawns the queue front as the new falling
piece, shifts the queue and sets DidHoldPiece; while DidHoldPiece is
set the hold input leaves the state unchanged, and every commit resets
DidHoldPiece. -/
theorem holdPiece_spec (g : Game) (r : Piece) :
    (g.DidHoldPiece = false → g.HoldPiece = none →
      step g (Action.holdKey r) =
        { g with
          FallingPiece :=
            { g.Queue.1.resetRotation with
              X := spawnX g.Queue.1.resetRotation.Width, Y := 0 },
          Queue := (g.Queue.2.1, g.Queue.2.2, r),
          HoldPiece := some { g.FallingPiece.resetRotation with X := 0, Y := 0 },
          DidHoldPiece := true }) ∧
    (g.DidHoldPiece = true → step g (Action.holdKey r) = g) ∧
    (∀ r' : Piece, (commitPiece g r').DidHoldPiece = false) := by
  refine ⟨?_, ?_, ?_⟩
  · intro hd hh
    simp only [step]
    rw [if_neg (by simp [hd])]
    simp only [holdPiece, hh, loadNextPiece]
    rw [resetRotation_setPos g.Queue.1 (spawnX g.Queue.1.Width) 0]
  · intro hd
    simp only [step]
    rw [if_pos hd]
  · intro r'
    rfl

/-- C7 witness: holding in a fresh game stores the falling piece and
spawns the queue front; the resulting state carries DidHoldPiece. -/
theorem holdPiece_spec_witness :
    (newGame pieceI pieceJ pieceL pieceO).DidHoldPiece = false ∧
    (newGame pieceI pieceJ pieceL pieceO).HoldPiece = none ∧
    step (newGame pieceI pieceJ pieceL pieceO) (Action.holdKey pieceT) =
      { newGame pieceI pieceJ pieceL pieceO with
        FallingPiece :=
          { (newGame pieceI pieceJ pieceL pieceO).Queue.1.resetRotation with
            X := spawnX (newGame pieceI pieceJ pieceL pieceO).Queue.1.resetRotation.Width,
            Y := 0 },
        Queue := ((newGame pieceI pieceJ pieceL pieceO).Queue.2.1,
          (newGame pieceI pieceJ pieceL pieceO).Queue.2.2, pieceT),
        HoldPiece := some
          { (newGame pieceI pieceJ pieceL pieceO).FallingPiece.resetRotation with
            X := 0, Y := 0 },
        DidHoldPiece := true } :=
  ⟨rfl, rfl, (holdPiece_spec (newGame pieceI pieceJ pieceL pieceO) pieceT).1 rfl rfl⟩

/-! ### Fall-speed lemmas -/

theorem getFallSpeedFuel_mono (f : Nat) : ∀ (l : Int) (v : Nat),
    getFallSpeedFuel f l = some v → getFallSpeedFuel (f + 1) l = some v := by
  induction f with
  | zero => intro l v h; exact absurd h (by simp [getFallSpeedFuel])
  | succ f ih =>
    intro l v h
    rw [getFallSpeedFuel] at h ⊢
    by_cases h29 : 29 < l
    · rw [if_pos h29] at h ⊢
      exact h
    · rw [if_neg h29] at h ⊢
      cases htbl : fallSpeedTbl l with
      | some s => rw [htbl] at h; exact h
      | none => rw [htbl] at h; exact ih (l - 1) v h

theorem getFallSpeedFuel_stable (f f' : Nat) (hle : f ≤ f') (l : Int) (v : Nat)
    (h : getFallSpeedFuel f l = some v) : getFallSpeedFuel f' l = some v := by
  obtain ⟨d, rfl⟩ := Nat.exists_eq_add_of_le hle
  clear hle
  induction d with
  | zero => exact h
  | succ d ih => exact getFallSpeedFuel_mono (f + d) l v ih

/-- C6: getFallSpeed terminates on every level l >= 0 — the fueled
recursion stabilizes once the fuel exceeds the level — returning 1 for
every level above 29 and otherwise the table entry at the greatest
defined key at most l; the value is non-increasing in the level, and
after every line clear the level is min(LinesCleared / 10, 29). -/
theorem getFallSpeed_spec :
    (∀ l : Int, 0 ≤ l → (fallSpeedAt l).isSome = true) ∧
    (∀ l : Int, 0 ≤ l → ∀ f : Nat, l.toNat < f → getFallSpeedFuel f l = fallSpeedAt l) ∧
    (∀ l : Int, 29 < l → fallSpeedAt l = some 1) ∧
    (∀ l : Int, 0 ≤ l → l ≤ 29 → ∀ v : Nat, fallSpeedAt l = some v →
      ∃ k : Nat, (k : Int) ≤ l ∧ fallSpeedTbl k = some v ∧
        ∀ k' : Nat, (k' : Int) ≤ l → k < k' → fallSpeedTbl k' = none) ∧
    (∀ l l' : Int, 0 ≤ l → l ≤ l' → ∀ v v' : Nat,
      fallSpeedAt l = some v → fallSpeedAt l' = some v' → v' ≤ v) ∧
    (∀ g : Game, 1 ≤ (clearLinesCells g.Cells).2 →
      (clearLines g).Level = min ((clearLines g).LinesCleared / 10) 29) := by
  have hgt : ∀ l : Int, 29 < l → fallSpeedAt l = some 1 := by
    intro l hl
    show getFallSpeedFuel (l.toNat + 1) l = some 1
    rw [getFallSpeedFuel, if_pos hl]
  have ha : ∀ l : Int, 0 ≤ l → (fallSpeedAt l).isSome = true := by
    intro l hl
    by_cases h29 : l ≤ 29
    · obtain ⟨n, rfl⟩ : ∃ n : Nat, l = (n : Int) := ⟨l.toNat, by omega⟩
      have hdec : ∀ n' : Nat, n' < 30 →
          (getFallSpeedFuel (n' + 1) (n' : Int)).isSome = true := by decide
      exact hdec n (by omega)
    · rw [hgt l (by omega)]
      rfl
  refine ⟨ha, ?_, hgt, ?_, ?_, ?_⟩
  · intro l hl f hf
    obtain ⟨v, hv⟩ := Option.isSome_iff_exists.mp (ha l hl)
    rw [hv]
    exact getFallSpeedFuel_stable _ _ (by omega) _ _ hv
  · intro l hl0 hl29 v hv
    obtain ⟨n, rfl⟩ : ∃ n : Nat, l = (n : Int) := ⟨l.toNat, by omega⟩
    have hn30 : n < 30 := by omega
    have hdec : ∀ m : Nat, m < 30 → ∃ k : Nat, k < 30 ∧ (k : Int) ≤ (m : Int) ∧
        fallSpeedTbl (k : Int) = getFallSpeedFuel (m + 1) (m : Int) ∧
        ∀ k' : Nat, k' < 30 →
          ((k' : Int) ≤ (m : Int) → k < k' → fallSpeedTbl (k' : Int) = none) := by
      decide
    obtain ⟨k, hk30, hkle, hkeq, hkmax⟩ := hdec n hn30
    have hv' : getFallSpeedFuel (n + 1) (n : Int) = some v := hv
    refine ⟨k, hkle, hkeq.trans hv', ?_⟩
    intro k' hk'le hkk'
    have hk'30 : k' < 30 := by omega
    exact hkmax k' hk'30 hk'le hkk'
  · intro l l' hl hll' v v' hv hv'
    by_cases h29 : l' ≤ 29
    · obtain ⟨n, rfl⟩ : ∃ n : Nat, l = (n : Int) := ⟨l.toNat, by omega⟩
      obtain ⟨m, rfl⟩ : ∃ m : Nat, l' = (m : Int) := ⟨l'.toNat, by omega⟩
      have hmono : ∀ a : Nat, a < 30 → ∀ b : Nat, b < 30 → a ≤ b →
          (getFallSpeedFuel (b + 1) (b : Int)).getD 0 ≤
            (getFallSpeedFuel (a + 1) (a : Int)).getD 0 := by decide
      have h1 := hmono n (by omega) m (by omega) (by omega)
      have e1 : getFallSpeedFuel (n + 1) (n : Int) = some v := hv
      have e2 : getFallSpeedFuel (m + 1) (m : Int) = some v' := hv'
      rw [e1, e2] at h1
      simpa using h1
    · have hv1 : v' = 1 := by
        have h := (hgt l' (by omega)).symm.trans hv'
        exact (Option.some.inj h).symm
      by_cases h29l : l ≤ 29
      · obtain ⟨n, rfl⟩ : ∃ n : Nat, l = (n : Int) := ⟨l.toNat, by omega⟩
        have hpos : ∀ a : Nat, a < 30 →
            1 ≤ (getFallSpeedFuel (a + 1) (a : Int)).getD 0 := by decide
        have h1 := hpos n (by omega)
        have e1 : getFallSpeedFuel (n + 1) (n : Int) = some v := hv
        rw [e1] at h1
        simp at h1
        omega
      · have hvv : v = 1 := by
          have h := (hgt l (by omega)).symm.trans hv
          exact (Option.some.inj h).symm
        omega
  · intro g hg
    simp only [clearLines]
    rw [if_pos (by omega)]

/-- C6 witness: at levels 3 and 35 the fueled recursion terminates and
stabilizes, and beyond 29 the speed is 1. -/
theorem getFallSpeed_spec_witness :
    (fallSpeedAt 3).isSome = true ∧ getFallSpeedFuel 100 3 = fallSpeedAt 3 ∧
    fallSpeedAt 35 = some 1 :=
  ⟨getFallSpeed_spec.1 3 (by decide),
    getFallSpeed_spec.2.1 3 (by decide) 100 (by decide),
    getFallSpeed_spec.2.2.1 35 (by decide)⟩

/-! ### Border invariant (C4) -/

/-- The flat indices of the wall columns and floor rows. -/
def isWallIdx (i : Nat) : Prop :=
  i % boardWidthWithWalls < wallThickness ∨
  boardWidthWithWalls - wallThickness ≤ i % boardWidthWithWalls ∨
  boardHeightWithFloor - floorThickness ≤ i / boardWidthWithWalls

instance (i : Nat) : Decidable (isWallIdx i) := by
  unfold isWallIdx
  infer_instance

theorem isWallIdx_iff (i : Nat) :
    isWallIdx i ↔ (i % 12 = 0 ∨ i % 12 = 11 ∨ 20 ≤ i / 12) := by
  unfold isWallIdx
  simp only [boardWidthWithWalls, wallThickness, boardHeightWithFloor, floorThickness,
    boardWidth, boardHeight]
  constructor
  · intro h
    have := Nat.mod_lt i (show 0 < 10 + 1 * 2 by omega)
    omega
  · intro h
    omega

/-- The border invariant: full-size board whose wall and floor cells
are all occupied. -/
def boardInv (cells : Board) : Prop :=
  cells.length = cellCount ∧
  ∀ i, i < cellCount → isWallIdx i → cells.getD i none ≠ none

theorem getD_ne_none_set_some (cs : Board) (j i : Nat) (c : Cell)
    (h : cs.getD i none ≠ none) : (cs.set j (some c)).getD i none ≠ none := by
  by_cases hj : j = i
  · subst hj
    by_cases hlen : j < cs.length
    · rw [getD_set_lt _ _ _ _ hlen]
      simp
    · rw [getD_set_ge _ _ _ _ _ (by omega)]
      exact h
  · rw [getD_set_ne _ _ _ _ _ hj]
    exact h

theorem fold_pres_of_step {α : Type} (f : Board → α → Board)
    (hf : ∀ cs a i, cs.getD i none ≠ none → (f cs a).getD i none ≠ none) :
    ∀ (l : List α) (cells : Board) (i : Nat), cells.getD i none ≠ none →
      (l.foldl f cells).getD i none ≠ none := by
  intro l
  induction l with
  | nil => intro cells i h; exact h
  | cons a l ih =>
    intro cells i h
    rw [List.foldl_cons]
    exact ih _ _ (hf cells a i h)

theorem fold_length_of_step {α : Type} (f : Board → α → Board)
    (hf : ∀ cs a, (f cs a).length = cs.length) :
    ∀ (l : List α) (cells : Board), (l.foldl f cells).length = cells.length := by
  intro l
  induction l with
  | nil => intro cells; rfl
  | cons a l ih =>
    intro cells
    rw [List.foldl_cons, ih, hf]

theorem fold_attain {α : Type} (f : Board → α → Board)
    (hpres : ∀ cs a i, cs.getD i none ≠ none → (f cs a).getD i none ≠ none)
    (hlen : ∀ cs a, (f cs a).length = cs.length)
    (l : List α) (a0 : α) (ha0 : a0 ∈ l) (i : Nat)
    (hset : ∀ cs : Board, cs.length = 252 → (f cs a0).getD i none ≠ none)
    (cells : Board) (hc : cells.length = 252) :
    (l.foldl f cells).getD i none ≠ none := by
  obtain ⟨s, t, rfl⟩ := List.append_of_mem ha0
  rw [List.foldl_append, List.foldl_cons]
  apply fold_pres_of_step f hpres t
  apply hset
  rw [fold_length_of_step f hlen s, hc]

theorem boardInv_initialCells : boardInv initialCells := by
  have hpresInner : ∀ (x : Nat) (cs2 : Board) (y : Nat) (i : Nat),
      cs2.getD i none ≠ none →
      ((if x < wallThickness ∨ boardWidthWithWalls - wallThickness ≤ x ∨
          boardHeightWithFloor - floorThickness ≤ y then
        cs2.set (y * boardWidthWithWalls + x) (some wallCell) else cs2)).getD i none ≠ none := by
    intro x cs2 y i h
    by_cases hcond : x < wallThickness ∨ boardWidthWithWalls - wallThickness ≤ x ∨
        boardHeightWithFloor - floorThickness ≤ y
    · rw [if_pos hcond]
      exact getD_ne_none_set_some _ _ _ _ h
    · rw [if_neg hcond]
      exact h
  have hlenInner : ∀ (x : Nat) (cs2 : Board) (y : Nat),
      ((if x < wallThickness ∨ boardWidthWithWalls - wallThickness ≤ x ∨
          boardHeightWithFloor - floorThickness ≤ y then
        cs2.set (y * boardWidthWithWalls + x) (some wallCell) else cs2)).length = cs2.length := by
    intro x cs2 y
    by_cases hcond : x < wallThickness ∨ boardWidthWithWalls - wallThickness ≤ x ∨
        boardHeightWithFloor - floorThickness ≤ y
    · rw [if_pos hcond, List.length_set]
    · rw [if_neg hcond]
  have hpresOuter : ∀ (cs : Board) (x : Nat) (i : Nat),
      cs.getD i none ≠ none →
      ((List.range boardHeightWithFloor).foldl
        (fun cs2 y =>
          if x < wallThickness ∨ boardWidthWithWalls - wallThickness ≤ x ∨
              boardHeightWithFloor - floorThickness ≤ y then
            cs2.set (y * boardWidthWithWalls + x) (some wallCell)
          else cs2) cs).getD i none ≠ none := by
    intro cs x i h
    exact fold_pres_of_step _ (hpresInner x) _ cs i h
  have hlenOuter : ∀ (cs : Board) (x : Nat),
      ((List.range boardHeightWithFloor).foldl
        (fun cs2 y =>
          if x < wallThickness ∨ boardWidthWithWalls - wallThickness ≤ x ∨
              boardHeightWithFloor - floorThickness ≤ y then
            cs2.set (y * boardWidthWithWalls + x) (some wallCell)
          else cs2) cs).length = cs.length := by
    intro cs x
    exact fold_length_of_step _ (hlenInner x) _ cs
  constructor
  · show (placeBorderCells (List.replicate cellCount none)).length = cellCount
    unfold placeBorderCells
    rw [fold_length_of_step _ (fun cs a => hlenOuter cs a), List.length_replicate]
  · intro i hi hw
    have hi252 : i < 252 := hi
    have hx12 : i % 12 < 12 := Nat.mod_lt i (by omega)
    have hw' := (isWallIdx_iff i).mp hw
    show (placeBorderCells (List.replicate cellCount none)).getD i none ≠ none
    unfold placeBorderCells
    apply fold_attain _ (fun cs a => hpresOuter cs a) (fun cs a => hlenOuter cs a)
      (List.range boardWidthWithWalls) (i % 12)
      (List.mem_range.mpr (by show i % 12 < 12; omega)) i
    · intro cs hcs
      apply fold_attain _ (hpresInner (i % 12)) (hlenInner (i % 12))
        (List.range boardHeightWithFloor) (i / 12)
        (List.mem_range.mpr (by show i / 12 < 21; omega)) i
      · intro cs2 hcs2
        have hcond : i % 12 < wallThickness ∨ boardWidthWithWalls - wallThickness ≤ i % 12 ∨
            boardHeightWithFloor - floorThickness ≤ i / 12 := by
          simp only [wallThickness, boardWidthWithWalls, boardHeightWithFloor, floorThickness,
            boardWidth, boardHeight]
          omega
        rw [if_pos hcond]
        have hidx : i / 12 * boardWidthWithWalls + i % 12 = i := by
          show i / 12 * 12 + i % 12 = i
          omega
        rw [hidx, getD_set_lt _ _ _ _ (by omega)]
        simp
      · exact hcs
    · exact List.length_replicate cellCount none

theorem boardInv_setCell_some (cells : Board) (i : Int) (c : Cell) (h : boardInv cells) :
    boardInv (setCell cells i (some c)) := by
  unfold setCell
  by_cases hi : 0 ≤ i
  · rw [if_pos hi]
    exact ⟨by rw [List.length_set]; exact h.1,
      fun j hj hw => getD_ne_none_set_some _ _ _ _ (h.2 j hj hw)⟩
  · rw [if_neg hi]
    exact h

theorem boardInv_writeMask (cells : Board) (p : Piece) (h : boardInv cells) :
    boardInv (writeMask cells p) := by
  unfold writeMask
  generalize List.range p.Mask.length = idxs
  induction idxs generalizing cells with
  | nil => exact h
  | cons i is ih =>
    rw [List.foldl_cons]
    by_cases hz : (p.Mask.getD i 0 == 0) = true
    · rw [if_pos hz]
      exact ih cells h
    · rw [if_neg hz]
      exact ih _ (boardInv_setCell_some cells _ _ h)

theorem boardInv_removeRow (cells : Board) (row : Nat) (hrow : row ≤ 19)
    (h : boardInv cells) : boardInv (removeRow cells row) := by
  refine ⟨by rw [removeRow_length]; exact h.1, ?_⟩
  intro i hi hw
  rw [removeRow_getD, if_neg ?hc]
  · exact h.2 i hi hw
  case hc =>
    intro hc
    have hw' := (isWallIdx_iff i).mp hw
    omega

theorem boardInv_clearLinesAux (rem : Nat) :
    ∀ st : Board × Nat, boardInv st.1 → boardInv (clearLinesAux rem st).1 := by
  induction rem with
  | zero => intro st h; exact h
  | succ r ih =>
    intro st h
    simp only [clearLinesAux]
    by_cases hf : rowFull st.1 (boardHeight - (r + 1))
    · rw [if_pos hf]
      refine ih _ (boardInv_removeRow _ _ ?_ h)
      show boardHeight - (r + 1) ≤ 19
      show 20 - (r + 1) ≤ 19
      omega
    · rw [if_neg hf]
      exact ih _ h

theorem clearLines_Cells (g : Game) :
    (clearLines g).Cells = (clearLinesCells g.Cells).1 := by
  simp only [clearLines]
  by_cases h : 0 < (clearLinesCells g.Cells).2
  · rw [if_pos h]
  · rw [if_neg h]

theorem boardInv_commitPiece (g : Game) (r : Piece) (h : boardInv g.Cells) :
    boardInv (commitPiece g r).Cells := by
  show boardInv (clearLines (loadNextPiece
    { g with FallingPiece := dropPiece g boardHeightWithFloor g.FallingPiece,
             Cells := writeMask g.Cells (dropPiece g boardHeightWithFloor g.FallingPiece) }
    r)).Cells
  rw [clearLines_Cells]
  exact boardInv_clearLinesAux boardHeight _ (boardInv_writeMask _ _ h)

theorem holdPiece_Cells (g : Game) (r : Piece) : (holdPiece g r).Cells = g.Cells := by
  simp only [holdPiece, loadNextPiece]
  cases g.HoldPiece <;> rfl

theorem boardInv_fall (g : Game) (m : Nat) (r : Piece) (h : boardInv g.Cells) :
    boardInv (fall g m r).Cells := by
  simp only [fall]
  by_cases h1 : canMoveDown g g.FallingPiece = true
  · rw [if_pos h1]
    by_cases h2 : m ≤ g.TicksSinceFall
    · rw [if_pos h2]
      exact h
    · rw [if_neg h2]
      exact h
  · rw [if_neg h1]
    by_cases h3 : 30 ≤ g.TicksSinceMove ∨ 120 ≤ g.LastChanceTicks
    · rw [if_pos h3]
      exact boardInv_commitPiece g r h
    · rw [if_neg h3]
      by_cases h4 : g.OpacityDirection = true
      · rw [if_pos h4]
        by_cases h5 : 255 ≤ g.FallingPiece.Opacity + 8
        · rw [if_pos h5]
          exact h
        · rw [if_neg h5]
          exact h
      · rw [if_neg h4]
        by_cases h5 : g.FallingPiece.Opacity - 8 ≤ 128
        · rw [if_pos h5]
          exact h
        · rw [if_neg h5]
          exact h

theorem newGame_Cells (q0 q1 q2 q3 : Piece) : (newGame q0 q1 q2 q3).Cells = initialCells := by
  simp only [newGame, loadNextPiece]

theorem boardInv_step (g : Game) (a : Action) (h : boardInv g.Cells) :
    boardInv (step g a).Cells := by
  cases a with
  | reset q0 q1 q2 q3 =>
    show boardInv (newGame q0 q1 q2 q3).Cells
    rw [newGame_Cells]
    exact boardInv_initialCells
  | toggleDebug => exact h
  | hardDrop r => exact boardInv_commitPiece _ r h
  | holdKey r =>
    simp only [step]
    by_cases hd : g.DidHoldPiece = true
    · rw [if_pos hd]
      exact h
    · rw [if_neg hd, holdPiece_Cells]
      exact h
  | moveLeft =>
    simp only [step]
    by_cases hm : canMoveLeft g = true
    · rw [if_pos hm]
      exact h
    · rw [if_neg hm]
      exact h
  | moveRight =>
    simp only [step]
    by_cases hm : canMoveRight g = true
    · rw [if_pos hm]
      exact h
    · rw [if_neg hm]
      exact h
  | rotateKey =>
    simp only [step]
    by_cases hm : canRotate g = some true
    · rw [if_pos hm]
      exact h
    · rw [if_neg hm]
      exact h
  | tick fast r => exact boardInv_fall _ _ r h

/-- C4: in every game state reachable from a fresh game by Update
actions, every board cell in the wall columns (x below wallThickness or
at least boardWidthWithWalls - wallThickness) and the floor rows (y at
least boardHeightWithFloor - floorThickness) is occupied, and the board
keeps its full size: no operation ever clears a border cell. -/
theorem border_invariant (g : Game) (h : Reachable g) :
    g.Cells.length = cellCount ∧
    ∀ i, i < cellCount → isWallIdx i → g.Cells.getD i none ≠ none := by
  obtain ⟨q0, q1, q2, q3, hrt⟩ := h
  show boardInv g.Cells
  induction hrt with
  | refl =>
    rw [newGame_Cells]
    exact boardInv_initialCells
  | tail h1 h2 ih =>
    obtain ⟨act, rfl⟩ := h2
    exact boardInv_step _ act ih

/-- C4 witness: a fresh game, and the state after a hard drop, both
satisfy the border invariant; the bottom-left floor cell is occupied. -/
theorem border_invariant_witness :
    ((newGame pieceI pieceJ pieceL pieceO).Cells.length = cellCount ∧
      ∀ i, i < cellCount → isWallIdx i →
        (newGame pieceI pieceJ pieceL pieceO).Cells.getD i none ≠ none) ∧
    ((step (newGame pieceI pieceJ pieceL pieceO) (Action.hardDrop pieceT)).Cells.length =
        cellCount ∧
      ∀ i, i < cellCount → isWallIdx i →
        (step (newGame pieceI pieceJ pieceL pieceO)
          (Action.hardDrop pieceT)).Cells.getD i none ≠ none) :=
  ⟨border_invariant _ ⟨pieceI, pieceJ, pieceL, pieceO, Relation.ReflTransGen.refl⟩,
    border_invariant _ ⟨pieceI, pieceJ, pieceL, pieceO,
      Relation.ReflTransGen.tail Relation.ReflTransGen.refl
        ⟨Action.hardDrop pieceT, rfl⟩⟩⟩

/-! ### TrimSpace bounding-box characterization (C9) -/

theorem trimStep_minX (p : Piece) (b : TrimBox) (i : Nat) :
    ((trimStep p b i).minX = b.minX ∨
      (p.Mask.getD i 0 ≠ 0 ∧ (trimStep p b i).minX = i % p.Width)) ∧
    (trimStep p b i).minX ≤ b.minX ∧
    (p.Mask.getD i 0 ≠ 0 → (trimStep p b i).minX ≤ i % p.Width) := by
  unfold trimStep
  by_cases hz : p.Mask.getD i 0 = 0
  · rw [if_pos hz]
    exact ⟨Or.inl rfl, le_refl _, fun h => absurd hz h⟩
  · rw [if_neg hz]
    by_cases hlt : i % p.Width < b.minX
    · refine ⟨Or.inr ⟨hz, ?_⟩, ?_, fun _ => ?_⟩ <;> simp [hlt] <;> omega
    · refine ⟨Or.inl ?_, ?_, fun _ => ?_⟩ <;> simp [hlt] <;> omega

theorem trimStep_minY (p : Piece) (b : TrimBox) (i : Nat) :
    ((trimStep p b i).minY = b.minY ∨
      (p.Mask.getD i 0 ≠ 0 ∧ (trimStep p b i).minY = i / p.Width)) ∧
    (trimStep p b i).minY ≤ b.minY ∧
    (p.Mask.getD i 0 ≠ 0 → (trimStep p b i).minY ≤ i / p.Width) := by
  unfold trimStep
  by_cases hz : p.Mask.getD i 0 = 0
  · rw [if_pos hz]
    exact ⟨Or.inl rfl, le_refl _, fun h => absurd hz h⟩
  · rw [if_neg hz]
    by_cases hlt : i / p.Width < b.minY
    · refine ⟨Or.inr ⟨hz, ?_⟩, ?_, fun _ => ?_⟩ <;> simp [hlt] <;> omega
    · refine ⟨Or.inl ?_, ?_, fun _ => ?_⟩ <;> simp [hlt] <;> omega

theorem trimStep_maxX (p : Piece) (b : TrimBox) (i : Nat) :
    ((trimStep p b i).maxX = b.maxX ∨
      (p.Mask.getD i 0 ≠ 0 ∧ (trimStep p b i).maxX = i % p.Width)) ∧
    b.maxX ≤ (trimStep p b i).maxX ∧
    (p.Mask.getD i 0 ≠ 0 → i % p.Width ≤ (trimStep p b i).maxX) := by
  unfold trimStep
  by_cases hz : p.Mask.getD i 0 = 0
  · rw [if_pos hz]
    exact ⟨Or.inl rfl, le_refl _, fun h => absurd hz h⟩
  · rw [if_neg hz]
    by_cases hlt : i % p.Width > b.maxX
    · refine ⟨Or.inr ⟨hz, ?_⟩, ?_, fun _ => ?_⟩ <;> simp [hlt] <;> omega
    · refine ⟨Or.inl ?_, ?_, fun _ => ?_⟩ <;> simp [hlt] <;> omega

theorem trimStep_maxY (p : Piece) (b : TrimBox) (i : Nat) :
    ((trimStep p b i).maxY = b.maxY ∨
      (p.Mask.getD i 0 ≠ 0 ∧ (trimStep p b i).maxY = i / p.Width)) ∧
    b.maxY ≤ (trimStep p b i).maxY ∧
    (p.Mask.getD i 0 ≠ 0 → i / p.Width ≤ (trimStep p b i).maxY) := by
  unfold trimStep
  by_cases hz : p.Mask.getD i 0 = 0
  · rw [if_pos hz]
    exact ⟨Or.inl rfl, le_refl _, fun h => absurd hz h⟩
  · rw [if_neg hz]
    by_cases hlt : i / p.Width > b.maxY
    · refine ⟨Or.inr ⟨hz, ?_⟩, ?_, fun _ => ?_⟩ <;> simp [hlt] <;> omega
    · refine ⟨Or.inl ?_, ?_, fun _ => ?_⟩ <;> simp [hlt] <;> omega

theorem trimFold_minX (p : Piece) : ∀ (l : List Nat) (b : TrimBox),
    ((l.foldl (trimStep p) b).minX = b.minX ∨
      ∃ i ∈ l, p.Mask.getD i 0 ≠ 0 ∧ (l.foldl (trimStep p) b).minX = i % p.Width) ∧
    (∀ i ∈ l, p.Mask.getD i 0 ≠ 0 → (l.foldl (trimStep p) b).minX ≤ i % p.Width) ∧
    (l.foldl (trimStep p) b).minX ≤ b.minX := by
  intro l
  induction l with
  | nil => intro b; exact ⟨Or.inl rfl, by simp, le_refl _⟩
  | cons i l ih =>
    intro b
    obtain ⟨ha, hb, hc⟩ := ih (trimStep p b i)
    obtain ⟨hs1, hs2, hs3⟩ := trimStep_minX p b i
    rw [List.foldl_cons]
    refine ⟨?_, ?_, le_trans hc hs2⟩
    · rcases ha with h | ⟨i', hi', hocc', heq⟩
      · rcases hs1 with h2 | ⟨hocc2, h2⟩
        · exact Or.inl (h.trans h2)
        · exact Or.inr ⟨i, List.mem_cons_self i l, hocc2, h.trans h2⟩
      · exact Or.inr ⟨i', List.mem_cons_of_mem _ hi', hocc', heq⟩
    · intro i'' hi'' hocc''
      rcases List.mem_cons.mp hi'' with rfl | hmem
      · exact le_trans hc (hs3 hocc'')
      · exact hb i'' hmem hocc''

theorem trimFold_minY (p : Piece) : ∀ (l : List Nat) (b : TrimBox),
    ((l.foldl (trimStep p) b).minY = b.minY ∨
      ∃ i ∈ l, p.Mask.getD i 0 ≠ 0 ∧ (l.foldl (trimStep p) b).minY = i / p.Width) ∧
    (∀ i ∈ l, p.Mask.getD i 0 ≠ 0 → (l.foldl (trimStep p) b).minY ≤ i / p.Width) ∧
    (l.foldl (trimStep p) b).minY ≤ b.minY := by
  intro l
  induction l with
  | nil => intro b; exact ⟨Or.inl rfl, by simp, le_refl _⟩
  | cons i l ih =>
    intro b
    obtain ⟨ha, hb, hc⟩ := ih (trimStep p b i)
    obtain ⟨hs1, hs2, hs3⟩ := trimStep_minY p b i
    rw [List.foldl_cons]
    refine ⟨?_, ?_, le_trans hc hs2⟩
    · rcases ha with h | ⟨i', hi', hocc', heq⟩
      · rcases hs1 with h2 | ⟨hocc2, h2⟩
        · exact Or.inl (h.trans h2)
        · exact Or.inr ⟨i, List.mem_cons_self i l, hocc2, h.trans h2⟩
      · exact Or.inr ⟨i', List.mem_cons_of_mem _ hi', hocc', heq⟩
    · intro i'' hi'' hocc''
      rcases List.mem_cons.mp hi'' with rfl | hmem
      · exact le_trans hc (hs3 hocc'')
      · exact hb i'' hmem hocc''

theorem trimFold_maxX (p : Piece) : ∀ (l : List Nat) (b : TrimBox),
    ((l.foldl (trimStep p) b).maxX = b.maxX ∨
      ∃ i ∈ l, p.Mask.getD i 0 ≠ 0 ∧ (l.foldl (trimStep p) b).maxX = i % p.Width) ∧
    (∀ i ∈ l, p.Mask.getD i 0 ≠ 0 → i % p.Width ≤ (l.foldl (trimStep p) b).maxX) ∧
    b.maxX ≤ (l.foldl (trimStep p) b).maxX := by
  intro l
  induction l with
  | nil => intro b; exact ⟨Or.inl rfl, by simp, le_refl _⟩
  | cons i l ih =>
    intro b
    obtain ⟨ha, hb, hc⟩ := ih (trimStep p b i)
    obtain ⟨hs1, hs2, hs3⟩ := trimStep_maxX p b i
    rw [List.foldl_cons]
    refine ⟨?_, ?_, le_trans hs2 hc⟩
    · rcases ha with h | ⟨i', hi', hocc', heq⟩
      · rcases hs1 with h2 | ⟨hocc2, h2⟩
        · exact Or.inl (h.trans h2)
        · exact Or.inr ⟨i, List.mem_cons_self i l, hocc2, h.trans h2⟩
      · exact Or.inr ⟨i', List.mem_cons_of_mem _ hi', hocc', heq⟩
    · intro i'' hi'' hocc''
      rcases List.mem_cons.mp hi'' with rfl | hmem
      · exact le_trans (hs3 hocc'') hc
      · exact hb i'' hmem hocc''

theorem trimFold_maxY (p : Piece) : ∀ (l : List Nat) (b : TrimBox),
    ((l.foldl (trimStep p) b).maxY = b.maxY ∨
      ∃ i ∈ l, p.Mask.getD i 0 ≠ 0 ∧ (l.foldl (trimStep p) b).maxY = i / p.Width) ∧
    (∀ i ∈ l, p.Mask.getD i 0 ≠ 0 → i / p.Width ≤ (l.foldl (trimStep p) b).maxY) ∧
    b.maxY ≤ (l.foldl (trimStep p) b).maxY := by
  intro l
  induction l with
  | nil => intro b; exact ⟨Or.inl rfl, by simp, le_refl _⟩
  | cons i l ih =>
    intro b
    obtain ⟨ha, hb, hc⟩ := ih (trimStep p b i)
    obtain ⟨hs1, hs2, hs3⟩ := trimStep_maxY p b i
    rw [List.foldl_cons]
    refine ⟨?_, ?_, le_trans hs2 hc⟩
    · rcases ha with h | ⟨i', hi', hocc', heq⟩
      · rcases hs1 with h2 | ⟨hocc2, h2⟩
        · exact Or.inl (h.trans h2)
        · exact Or.inr ⟨i, List.mem_cons_self i l, hocc2, h.trans h2⟩
      · exact Or.inr ⟨i', List.mem_cons_of_mem _ hi', hocc', heq⟩
    · intro i'' hi'' hocc''
      rcases List.mem_cons.mp hi'' with rfl | hmem
      · exact le_trans (hs3 hocc'') hc
      · exact hb i'' hmem hocc''

theorem TrimSpace_explicit (p : Piece) : p.TrimSpace =
    { p with
      Mask := (List.range (((trimBounds p).maxX - (trimBounds p).minX + 1) *
        ((trimBounds p).maxY - (trimBounds p).minY + 1))).map
          (fun i => p.Mask.getD
            ((i / ((trimBounds p).maxX - (trimBounds p).minX + 1) + (trimBounds p).minY) *
                p.Width +
              i % ((trimBounds p).maxX - (trimBounds p).minX + 1) + (trimBounds p).minX) 0),
      Width := (trimBounds p).maxX - (trimBounds p).minX + 1,
      Height := (trimBounds p).maxY - (trimBounds p).minY + 1 } := rfl

theorem div_mul_add_mod (i W : Nat) : i / W * W + i % W = i := by
  rw [Nat.mul_comm]
  exact Nat.div_add_mod i W

theorem qr_div_mod (W1 q r : Nat) (hW1 : 0 < W1) (hr : r < W1) :
    (q * W1 + r) / W1 = q ∧ (q * W1 + r) % W1 = r := by
  constructor
  · rw [Nat.mul_comm q W1, Nat.add_comm (W1 * q) r, Nat.add_mul_div_left _ _ hW1,
      Nat.div_eq_of_lt hr, Nat.zero_add]
  · rw [Nat.mul_comm q W1, Nat.add_comm (W1 * q) r, Nat.add_mul_mod_self_left,
      Nat.mod_eq_of_lt hr]

theorem idx_lt (q r W1 H1 : Nat) (hq : q < H1) (hr : r < W1) : q * W1 + r < W1 * H1 := by
  have h1 : q * W1 + r < (q + 1) * W1 := by
    rw [Nat.add_mul, Nat.one_mul]
    omega
  have h2 : (q + 1) * W1 ≤ H1 * W1 := Nat.mul_le_mul_right _ (by omega)
  rw [Nat.mul_comm H1 W1] at h2
  omega

theorem getD_eq_getElem_of_lt (l : List Int) (j : Nat) (h : j < l.length) :
    l.getD j 0 = l[j] := by
  rw [List.getD_eq_getElem?_getD, List.getElem?_eq_getElem h, Option.getD_some]

/-- A piece whose bounding box is already tight is a fixed point of
TrimSpace. -/
theorem TrimSpace_eq_self (q : Piece) (hqlen : q.Mask.length = q.Width * q.Height)
    (hq : trimBounds q = ⟨0, 0, q.Width - 1, q.Height - 1⟩)
    (hqW : 0 < q.Width) (hqH : 0 < q.Height) :
    q.TrimSpace = q := by
  rw [TrimSpace_explicit q, hq]
  have hw : (TrimBox.mk 0 0 (q.Width - 1) (q.Height - 1)).maxX -
      (TrimBox.mk 0 0 (q.Width - 1) (q.Height - 1)).minX + 1 = q.Width := by
    show q.Width - 1 - 0 + 1 = q.Width
    omega
  have hh : (TrimBox.mk 0 0 (q.Width - 1) (q.Height - 1)).maxY -
      (TrimBox.mk 0 0 (q.Width - 1) (q.Height - 1)).minY + 1 = q.Height := by
    show q.Height - 1 - 0 + 1 = q.Height
    omega
  rw [hw, hh]
  have hM : (List.range (q.Width * q.Height)).map
      (fun i => q.Mask.getD
        ((i / q.Width + (TrimBox.mk 0 0 (q.Width - 1) (q.Height - 1)).minY) * q.Width +
          i % q.Width + (TrimBox.mk 0 0 (q.Width - 1) (q.Height - 1)).minX) 0) = q.Mask := by
    apply List.ext_getElem
    · rw [List.length_map, List.length_range, hqlen]
    · intro j h1 h2
      rw [List.getElem_map, List.getElem_range]
      have hidx : (j / q.Width + (TrimBox.mk 0 0 (q.Width - 1) (q.Height - 1)).minY) *
          q.Width + j % q.Width + (TrimBox.mk 0 0 (q.Width - 1) (q.Height - 1)).minX = j := by
        show (j / q.Width + 0) * q.Width + j % q.Width + 0 = j
        rw [Nat.add_zero, Nat.add_zero]
        exact div_mul_add_mod j q.Width
      rw [hidx]
      exact getD_eq_getElem_of_lt _ _ h2
  rw [hM]

theorem TrimSpace_Mask (p : Piece) : p.TrimSpace.Mask =
    (List.range (((trimBounds p).maxX - (trimBounds p).minX + 1) *
      ((trimBounds p).maxY - (trimBounds p).minY + 1))).map
        (fun i => p.Mask.getD
          ((i / ((trimBounds p).maxX - (trimBounds p).minX + 1) + (trimBounds p).minY) *
              p.Width +
            i % ((trimBounds p).maxX - (trimBounds p).minX + 1) + (trimBounds p).minX) 0) := rfl

theorem TrimSpace_length (p : Piece) : p.TrimSpace.Mask.length =
    ((trimBounds p).maxX - (trimBounds p).minX + 1) *
      ((trimBounds p).maxY - (trimBounds p).minY + 1) := by
  rw [TrimSpace_Mask, List.length_map, List.length_range]

theorem TrimSpace_getD (p : Piece) (j : Nat)
    (hj : j < ((trimBounds p).maxX - (trimBounds p).minX + 1) *
      ((trimBounds p).maxY - (trimBounds p).minY + 1)) :
    p.TrimSpace.Mask.getD j 0 = p.Mask.getD
      ((j / ((trimBounds p).maxX - (trimBounds p).minX + 1) + (trimBounds p).minY) * p.Width +
        j % ((trimBounds p).maxX - (trimBounds p).minX + 1) + (trimBounds p).minX) 0 := by
  rw [TrimSpace_Mask]
  have hl : j < ((List.range (((trimBounds p).maxX - (trimBounds p).minX + 1) *
      ((trimBounds p).maxY - (trimBounds p).minY + 1))).map
        (fun i => p.Mask.getD
          ((i / ((trimBounds p).maxX - (trimBounds p).minX + 1) + (trimBounds p).minY) *
              p.Width +
            i % ((trimBounds p).maxX - (trimBounds p).minX + 1) + (trimBounds p).minX)
          0)).length := by
    rw [List.length_map, List.length_range]
    exact hj
  rw [getD_eq_getElem_of_lt _ _ hl, List.getElem_map, List.getElem_range]

theorem trimBounds_minX_spec (p : Piece) :
    ((trimBounds p).minX = 100 ∨
      ∃ i, i < p.Mask.length ∧ p.Mask.getD i 0 ≠ 0 ∧ (trimBounds p).minX = i % p.Width) ∧
    ∀ i, i < p.Mask.length → p.Mask.getD i 0 ≠ 0 → (trimBounds p).minX ≤ i % p.Width := by
  obtain ⟨ha, hb, _⟩ := trimFold_minX p (List.range p.Mask.length) ⟨100, 100, 0, 0⟩
  have hTB : (List.range p.Mask.length).foldl (trimStep p) (TrimBox.mk 100 100 0 0) =
      trimBounds p := rfl
  rw [hTB] at ha hb
  constructor
  · rcases ha with h | ⟨i, hi, hoi, heq⟩
    · exact Or.inl h
    · exact Or.inr ⟨i, List.mem_range.mp hi, hoi, heq⟩
  · intro i hi hoi
    exact hb i (List.mem_range.mpr hi) hoi

theorem trimBounds_minY_spec (p : Piece) :
    ((trimBounds p).minY = 100 ∨
      ∃ i, i < p.Mask.length ∧ p.Mask.getD i 0 ≠ 0 ∧ (trimBounds p).minY = i / p.Width) ∧
    ∀ i, i < p.Mask.length → p.Mask.getD i 0 ≠ 0 → (trimBounds p).minY ≤ i / p.Width := by
  obtain ⟨ha, hb, _⟩ := trimFold_minY p (List.range p.Mask.length) ⟨100, 100, 0, 0⟩
  have hTB : (List.range p.Mask.length).foldl (trimStep p) (TrimBox.mk 100 100 0 0) =
      trimBounds p := rfl
  rw [hTB] at ha hb
  constructor
  · rcases ha with h | ⟨i, hi, hoi, heq⟩
    · exact Or.inl h
    · exact Or.inr ⟨i, List.mem_range.mp hi, hoi, heq⟩
  · intro i hi hoi
    exact hb i (List.mem_range.mpr hi) hoi

theorem trimBounds_maxX_spec (p : Piece) :
    ((trimBounds p).maxX = 0 ∨
      ∃ i, i < p.Mask.length ∧ p.Mask.getD i 0 ≠ 0 ∧ (trimBounds p).maxX = i % p.Width) ∧
    ∀ i, i < p.Mask.length → p.Mask.getD i 0 ≠ 0 → i % p.Width ≤ (trimBounds p).maxX := by
  obtain ⟨ha, hb, _⟩ := trimFold_maxX p (List.range p.Mask.length) ⟨100, 100, 0, 0⟩
  have hTB : (List.range p.Mask.length).foldl (trimStep p) (TrimBox.mk 100 100 0 0) =
      trimBounds p := rfl
  rw [hTB] at ha hb
  constructor
  · rcases ha with h | ⟨i, hi, hoi, heq⟩
    · exact Or.inl h
    · exact Or.inr ⟨i, List.mem_range.mp hi, hoi, heq⟩
  · intro i hi hoi
    exact hb i (List.mem_range.mpr hi) hoi

theorem trimBounds_maxY_spec (p : Piece) :
    ((trimBounds p).maxY = 0 ∨
      ∃ i, i < p.Mask.length ∧ p.Mask.getD i 0 ≠ 0 ∧ (trimBounds p).maxY = i / p.Width) ∧
    ∀ i, i < p.Mask.length → p.Mask.getD i 0 ≠ 0 → i / p.Width ≤ (trimBounds p).maxY := by
  obtain ⟨ha, hb, _⟩ := trimFold_maxY p (List.range p.Mask.length) ⟨100, 100, 0, 0⟩
  have hTB : (List.range p.Mask.length).foldl (trimStep p) (TrimBox.mk 100 100 0 0) =
      trimBounds p := rfl
  rw [hTB] at ha hb
  constructor
  · rcases ha with h | ⟨i, hi, hoi, heq⟩
    · exact Or.inl h
    · exact Or.inr ⟨i, List.mem_range.mp hi, hoi, heq⟩
  · intro i hi hoi
    exact hb i (List.mem_range.mpr hi) hoi

/-- If a piece with Width = W1v and a mask of W1v * H1v entries has occupied
cells touching column 0, column W1v - 1, row 0 and row H1v - 1, then its
bounding box is exactly the full mask rectangle. -/
theorem trimBounds_eq_of (q : Piece) (W1v H1v : Nat)
    (hWq : q.Width = W1v) (hlenq : q.Mask.length = W1v * H1v) (hW1 : 0 < W1v)
    (e1 : ∃ j, j < W1v * H1v ∧ q.Mask.getD j 0 ≠ 0 ∧ j % W1v = 0)
    (e2 : ∃ j, j < W1v * H1v ∧ q.Mask.getD j 0 ≠ 0 ∧ j % W1v = W1v - 1)
    (e3 : ∃ j, j < W1v * H1v ∧ q.Mask.getD j 0 ≠ 0 ∧ j / W1v = 0)
    (e4 : ∃ j, j < W1v * H1v ∧ q.Mask.getD j 0 ≠ 0 ∧ j / W1v = H1v - 1) :
    trimBounds q = ⟨0, 0, W1v - 1, H1v - 1⟩ := by
  obtain ⟨_, hminX_le⟩ := trimBounds_minX_spec q
  obtain ⟨_, hminY_le⟩ := trimBounds_minY_spec q
  obtain ⟨hmaxX_or, hmaxX_ge⟩ := trimBounds_maxX_spec q
  obtain ⟨hmaxY_or, hmaxY_ge⟩ := trimBounds_maxY_spec q
  obtain ⟨j1, hj1, ho1, hm1⟩ := e1
  obtain ⟨j2, hj2, ho2, hm2⟩ := e2
  obtain ⟨j3, hj3, ho3, hd3⟩ := e3
  obtain ⟨j4, hj4, ho4, hd4⟩ := e4
  have hl1 : j1 < q.Mask.length := by rw [hlenq]; exact hj1
  have hl2 : j2 < q.Mask.length := by rw [hlenq]; exact hj2
  have hl3 : j3 < q.Mask.length := by rw [hlenq]; exact hj3
  have hl4 : j4 < q.Mask.length := by rw [hlenq]; exact hj4
  have h1 : (trimBounds q).minX = 0 := by
    have h := hminX_le j1 hl1 ho1
    rw [hWq, hm1] at h
    omega
  have h2 : (trimBounds q).minY = 0 := by
    have h := hminY_le j3 hl3 ho3
    rw [hWq, hd3] at h
    omega
  have h3 : (trimBounds q).maxX = W1v - 1 := by
    have hge := hmaxX_ge j2 hl2 ho2
    rw [hWq, hm2] at hge
    rcases hmaxX_or with h | ⟨i, _, _, heq⟩
    · omega
    · rw [hWq] at heq
      have hlt : i % W1v < W1v := Nat.mod_lt _ hW1
      omega
  have h4 : (trimBounds q).maxY = H1v - 1 := by
    have hge := hmaxY_ge j4 hl4 ho4
    rw [hWq, hd4] at hge
    rcases hmaxY_or with h | ⟨i, hi, _, heq⟩
    · omega
    · rw [hWq] at heq
      have hiv : i < W1v * H1v := by rw [← hlenq]; exact hi
      have hlt : i / W1v < H1v := by
        rw [Nat.div_lt_iff_lt_mul hW1, Nat.mul_comm H1v W1v]
        exact hiv
      omega
  have heta : trimBounds q = ⟨(trimBounds q).minX, (trimBounds q).minY,
      (trimBounds q).maxX, (trimBounds q).maxY⟩ := rfl
  rw [heta, h1, h2, h3, h4]

/-- For a piece with a consistent mask, at least one occupied cell, and
Width, Height ≤ 100 (so the 100-sentinels of the bounding-box scan are
always beaten), the bounding box of the trimmed piece is the full trimmed
rectangle. -/
theorem trimBounds_TrimSpace (p : Piece)
    (hlen : p.Mask.length = p.Width * p.Height)
    (hocc : ∃ i, i < p.Mask.length ∧ p.Mask.getD i 0 ≠ 0)
    (hWle : p.Width ≤ 100) (hHle : p.Height ≤ 100) :
    trimBounds p.TrimSpace = ⟨0, 0, p.TrimSpace.Width - 1, p.TrimSpace.Height - 1⟩ := by
  obtain ⟨i0, hi0, hocc0⟩ := hocc
  have hWH : 0 < p.Width * p.Height := Nat.lt_of_le_of_lt (Nat.zero_le i0) (hlen ▸ hi0)
  have hWpos : 0 < p.Width := by
    rcases Nat.eq_zero_or_pos p.Width with h | h
    · rw [h, Nat.zero_mul] at hWH
      exact absurd hWH (lt_irrefl 0)
    · exact h
  have hHpos : 0 < p.Height := by
    rcases Nat.eq_zero_or_pos p.Height with h | h
    · rw [h, Nat.mul_zero] at hWH
      exact absurd hWH (lt_irrefl 0)
    · exact h
  obtain ⟨hminX_or, hminX_le⟩ := trimBounds_minX_spec p
  obtain ⟨hminY_or, hminY_le⟩ := trimBounds_minY_spec p
  obtain ⟨hmaxX_or, hmaxX_ge⟩ := trimBounds_maxX_spec p
  obtain ⟨hmaxY_or, hmaxY_ge⟩ := trimBounds_maxY_spec p
  have hminX_att : ∃ i, i < p.Mask.length ∧ p.Mask.getD i 0 ≠ 0 ∧
      (trimBounds p).minX = i % p.Width := by
    rcases hminX_or with h | h
    · exfalso
      have h1 := hminX_le i0 hi0 hocc0
      have h2 : i0 % p.Width < p.Width := Nat.mod_lt _ hWpos
      omega
    · exact h
  have hminY_att : ∃ i, i < p.Mask.length ∧ p.Mask.getD i 0 ≠ 0 ∧
      (trimBounds p).minY = i / p.Width := by
    rcases hminY_or with h | h
    · exfalso
      have h1 := hminY_le i0 hi0 hocc0
      have h2 : i0 / p.Width < p.Height := by
        rw [Nat.div_lt_iff_lt_mul hWpos, Nat.mul_comm p.Height p.Width, ← hlen]
        exact hi0
      omega
    · exact h
  have hmaxX_att : ∃ i, i < p.Mask.length ∧ p.Mask.getD i 0 ≠ 0 ∧
      (trimBounds p).maxX = i % p.Width := by
    rcases hmaxX_or with h | h
    · refine ⟨i0, hi0, hocc0, ?_⟩
      have h1 := hmaxX_ge i0 hi0 hocc0
      omega
    · exact h
  have hmaxY_att : ∃ i, i < p.Mask.length ∧ p.Mask.getD i 0 ≠ 0 ∧
      (trimBounds p).maxY = i / p.Width := by
    rcases hmaxY_or with h | h
    · refine ⟨i0, hi0, hocc0, ?_⟩
      have h1 := hmaxY_ge i0 hi0 hocc0
      rw [h] at h1 ⊢
      exact (Nat.le_zero.mp h1).symm
    · exact h
  obtain ⟨i1, hi1, ho1, he1⟩ := hminX_att
  obtain ⟨i2, hi2, ho2, he2⟩ := hmaxX_att
  obtain ⟨i3, hi3, ho3, he3⟩ := hminY_att
  obtain ⟨i4, hi4, ho4, he4⟩ := hmaxY_att
  have hW1pos : 0 < (trimBounds p).maxX - (trimBounds p).minX + 1 := Nat.succ_pos _
  have hY1le := hminY_le i1 hi1 ho1
  have hY1ge := hmaxY_ge i1 hi1 ho1
  have hY2le := hminY_le i2 hi2 ho2
  have hY2ge := hmaxY_ge i2 hi2 ho2
  have hX2le := hminX_le i2 hi2 ho2
  have hX3le := hminX_le i3 hi3 ho3
  have hX3ge := hmaxX_ge i3 hi3 ho3
  have hX4le := hminX_le i4 hi4 ho4
  have hX4ge := hmaxX_ge i4 hi4 ho4
  have hY4le := hminY_le i4 hi4 ho4
  refine trimBounds_eq_of p.TrimSpace
    ((trimBounds p).maxX - (trimBounds p).minX + 1)
    ((trimBounds p).maxY - (trimBounds p).minY + 1)
    rfl (TrimSpace_length p) hW1pos ?_ ?_ ?_ ?_
  · -- a cell in column 0 of the trimmed mask: the minX attainer
    have hq1 : i1 / p.Width - (trimBounds p).minY <
        (trimBounds p).maxY - (trimBounds p).minY + 1 := by omega
    have hj1 := idx_lt (i1 / p.Width - (trimBounds p).minY) 0
      ((trimBounds p).maxX - (trimBounds p).minX + 1)
      ((trimBounds p).maxY - (trimBounds p).minY + 1) hq1 hW1pos
    obtain ⟨hd1, hm1⟩ := qr_div_mod ((trimBounds p).maxX - (trimBounds p).minX + 1)
      (i1 / p.Width - (trimBounds p).minY) 0 hW1pos hW1pos
    refine ⟨(i1 / p.Width - (trimBounds p).minY) *
      ((trimBounds p).maxX - (trimBounds p).minX + 1) + 0, hj1, ?_, hm1⟩
    rw [TrimSpace_getD p _ hj1, hd1, hm1, Nat.sub_add_cancel hY1le, Nat.add_zero, he1,
      div_mul_add_mod]
    exact ho1
  · -- a cell in the last column of the trimmed mask: the maxX attainer
    have hr2 : (trimBounds p).maxX - (trimBounds p).minX + 1 - 1 <
        (trimBounds p).maxX - (trimBounds p).minX + 1 := by omega
    have hq2 : i2 / p.Width - (trimBounds p).minY <
        (trimBounds p).maxY - (trimBounds p).minY + 1 := by omega
    have hj2 := idx_lt (i2 / p.Width - (trimBounds p).minY)
      ((trimBounds p).maxX - (trimBounds p).minX + 1 - 1)
      ((trimBounds p).maxX - (trimBounds p).minX + 1)
      ((trimBounds p).maxY - (trimBounds p).minY + 1) hq2 hr2
    obtain ⟨hd2, hm2⟩ := qr_div_mod ((trimBounds p).maxX - (trimBounds p).minX + 1)
      (i2 / p.Width - (trimBounds p).minY)
      ((trimBounds p).maxX - (trimBounds p).minX + 1 - 1) hW1pos hr2
    refine ⟨(i2 / p.Width - (trimBounds p).minY) *
      ((trimBounds p).maxX - (trimBounds p).minX + 1) +
      ((trimBounds p).maxX - (trimBounds p).minX + 1 - 1), hj2, ?_, hm2⟩
    rw [TrimSpace_getD p _ hj2, hd2, hm2, Nat.sub_add_cancel hY2le]
    have hr2e : (trimBounds p).maxX - (trimBounds p).minX + 1 - 1 + (trimBounds p).minX =
        i2 % p.Width := by omega
    rw [Nat.add_assoc, hr2e, div_mul_add_mod]
    exact ho2
  · -- a cell in row 0 of the trimmed mask: the minY attainer
    have hr3 : i3 % p.Width - (trimBounds p).minX <
        (trimBounds p).maxX - (trimBounds p).minX + 1 := by omega
    have hH1pos : 0 < (trimBounds p).maxY - (trimBounds p).minY + 1 := Nat.succ_pos _
    have hj3 := idx_lt 0 (i3 % p.Width - (trimBounds p).minX)
      ((trimBounds p).maxX - (trimBounds p).minX + 1)
      ((trimBounds p).maxY - (trimBounds p).minY + 1) hH1pos hr3
    obtain ⟨hd3, hm3⟩ := qr_div_mod ((trimBounds p).maxX - (trimBounds p).minX + 1)
      0 (i3 % p.Width - (trimBounds p).minX) hW1pos hr3
    refine ⟨0 * ((trimBounds p).maxX - (trimBounds p).minX + 1) +
      (i3 % p.Width - (trimBounds p).minX), hj3, ?_, hd3⟩
    rw [TrimSpace_getD p _ hj3, hd3, hm3, Nat.zero_add, Nat.add_assoc,
      Nat.sub_add_cancel hX3le, he3, div_mul_add_mod]
    exact ho3
  · -- a cell in the last row of the trimmed mask: the maxY attainer
    have hr4 : i4 % p.Width - (trimBounds p).minX <
        (trimBounds p).maxX - (trimBounds p).minX + 1 := by omega
    have hq4 : (trimBounds p).maxY - (trimBounds p).minY + 1 - 1 <
        (trimBounds p).maxY - (trimBounds p).minY + 1 := by omega
    have hj4 := idx_lt ((trimBounds p).maxY - (trimBounds p).minY + 1 - 1)
      (i4 % p.Width - (trimBounds p).minX)
      ((trimBounds p).maxX - (trimBounds p).minX + 1)
      ((trimBounds p).maxY - (trimBounds p).minY + 1) hq4 hr4
    obtain ⟨hd4, hm4⟩ := qr_div_mod ((trimBounds p).maxX - (trimBounds p).minX + 1)
      ((trimBounds p).maxY - (trimBounds p).minY + 1 - 1)
      (i4 % p.Width - (trimBounds p).minX) hW1pos hr4
    refine ⟨((trimBounds p).maxY - (trimBounds p).minY + 1 - 1) *
      ((trimBounds p).maxX - (trimBounds p).minX + 1) +
      (i4 % p.Width - (trimBounds p).minX), hj4, ?_, hd4⟩
    rw [TrimSpace_getD p _ hj4, hd4, hm4]
    have hq4e : (trimBounds p).maxY - (trimBounds p).minY + 1 - 1 + (trimBounds p).minY =
        i4 / p.Width := by omega
    rw [hq4e, Nat.add_assoc, Nat.sub_add_cancel hX4le, div_mul_add_mod]
    exact ho4

/-- C9 (amended): TrimSpace is idempotent on every piece whose mask has
exactly Width * Height entries, at least one occupied cell, and
Width ≤ 100 and Height ≤ 100 — the Go scan initializes minX and minY to
the sentinel 100, so occupied coordinates must stay below 100 for the
sentinel to be beaten. Trimming once tightens the bounding box to the
mask rectangle, and trimming the result again returns it unchanged. -/
theorem TrimSpace_idem (p : Piece)
    (hlen : p.Mask.length = p.Width * p.Height)
    (hocc : ∃ i, i < p.Mask.length ∧ p.Mask.getD i 0 ≠ 0)
    (hW : p.Width ≤ 100) (hH : p.Height ≤ 100) :
    p.TrimSpace.TrimSpace = p.TrimSpace := by
  apply TrimSpace_eq_self
  · exact TrimSpace_length p
  · exact trimBounds_TrimSpace p hlen hocc hW hH
  · exact Nat.succ_pos _
  · exact Nat.succ_pos _

theorem TrimSpace_idem_witness :
    pieceT.Mask.length = pieceT.Width * pieceT.Height ∧
    (1 < pieceT.Mask.length ∧ pieceT.Mask.getD 1 0 ≠ 0) ∧
    pieceT.Width ≤ 100 ∧ pieceT.Height ≤ 100 ∧
    pieceT.TrimSpace.TrimSpace = pieceT.TrimSpace :=
  ⟨by decide, by decide, by decide, by decide,
    TrimSpace_idem pieceT (by decide) ⟨1, by decide⟩ (by decide) (by decide)⟩

/-- A mask wider than the 100-sentinel: one occupied cell at x = 120.
The first trim keeps minX at the unbeaten sentinel 100 and slices out
columns 100-120; only the second trim tightens the box to that cell. -/
def cexPiece : Piece :=
  { Mask := List.replicate 120 0 ++ [1], Width := 121, Height := 1 }

set_option maxRecDepth 8000 in
/-- C9 counterexample to the unamended claim: TrimSpace is not idempotent
for a 121 x 1 piece occupied only at x = 120 — the first trim yields width
21, the second width 1. -/
theorem TrimSpace_not_idempotent :
    cexPiece.TrimSpace.TrimSpace.Width ≠ cexPiece.TrimSpace.Width := by decide

end Tetris
